import Mathlib

/-!
# Level-synchronised parallel BFS crawler (`par_level_client.cpp`)

A shallow embedding of `src/sequential/par_level_client.cpp` and the properties
proved about it.

Modelling conventions

* `std::string` is `String`; `vector<T>` is `List T`; `unordered_set<string>` is a
  `List String` used only through membership and insertion.
* The libraries the program links against are not part of the repository.  libcurl
  is the environment (`Curl`): the outcome of every `curl_easy_init` and of the
  `curl_easy_perform` for a node (a traversal requests a node at most once, so the
  outcome is a function of the node).  rapidjson is its DOM (`Value`) with the parser
  itself a parameter `Parse`; the accessors the program calls carry the
  preconditions rapidjson documents (`RAPIDJSON_ASSERT`, by default `assert`), and a
  violated precondition is the fault `Fault.assertion`: the call does not return.
* `i % num_threads` with `num_threads = 0` is the fault `Fault.division_by_zero`.
* `int num_nodes = current_level.size()` is taken without wrap-around: levels are
  assumed shorter than `2^31`.
* A wave of worker threads is the interleaving, chosen by a schedule, of the
  threads' critical sections (lines 122-126); everything a worker does outside
  the lock is a function of its own chunk.
-/

namespace GraphCrawler

/-! ## rapidjson -/

/-- The rapidjson DOM: a `GenericValue` is null, a boolean, a number (whose payload
this program never reads), a string, an array or an object, the last being the
sequence of its members in document order (duplicate names are kept). -/
inductive Value where
  | null : Value
  | bool (b : Bool) : Value
  | number : Value
  | string (s : String) : Value
  | array (elems : List Value) : Value
  | object (members : List (String × Value)) : Value

/-- Abnormal termination of the process. -/
inductive Fault where
  | assertion : Fault
  | division_by_zero : Fault
  deriving DecidableEq, Repr

/-- The text a `const char*` denotes: the characters before the first NUL.  It is
what `json_str.c_str()` hands to the parser and what `std::string(const char*)`
copies out of `GetString()`. -/
def c_str (s : String) : String :=
  ⟨s.data.takeWhile (fun c => c != Char.ofNat 0)⟩

/-- `Document::Parse`: a fresh `Document` is null and stays null when the parse
reports an error (`none`); otherwise it becomes the parsed root value. -/
def Document.Parse (Parse : String → Option Value) (text : String) : Value :=
  match Parse text with
  | some root => root
  | none => Value.null

/-- `GenericValue::IsArray`. -/
def Value.IsArray : Value → Bool
  | Value.array _ => true
  | _ => false

/-- `GenericValue::FindMember` on the member list: the first member with that
name. -/
def FindMember (name : String) : List (String × Value) → Option Value
  | [] => none
  | (k, v) :: rest => if k = name then some v else FindMember name rest

/-- `GenericValue::HasMember(name)`; precondition `IsObject()`. -/
def Value.HasMember (v : Value) (name : String) : Except Fault Bool :=
  match v with
  | Value.object members => Except.ok (FindMember name members).isSome
  | _ => Except.error Fault.assertion

/-- `GenericValue::operator[](name)`; preconditions `IsObject()` and that the
member exists. -/
def Value.member (v : Value) (name : String) : Except Fault Value :=
  match v with
  | Value.object members =>
    match FindMember name members with
    | some x => Except.ok x
    | none => Except.error Fault.assertion
  | _ => Except.error Fault.assertion

/-- `GenericValue::GetArray`; precondition `IsArray()`. -/
def Value.GetArray : Value → Except Fault (List Value)
  | Value.array elems => Except.ok elems
  | _ => Except.error Fault.assertion

/-- `GenericValue::GetString`; precondition `IsString()`.  The result is a
`const Ch*` to the string's characters. -/
def Value.GetString : Value → Except Fault String
  | Value.string s => Except.ok s
  | _ => Except.error Fault.assertion

/-! ## The program -/

/-- `MAX_THREADS` (line 28). -/
def MAX_THREADS : Nat := 8

/-- The payload `fetch_neighbors` substitutes for a failed transfer (line 84). -/
def EMPTY_OBJECT : String := "\x7b\x7d"

/-- The name of the field `get_neighbors` reads (line 94). -/
def NEIGHBORS : String := "neighbors"

/-- libcurl as seen by one run of the program. -/
structure Curl where
  /-- does `curl_easy_init()` of `parallel_bfs` (line 148) return a handle -/
  curl_easy_init : Bool
  /-- does `curl_easy_init()` of `process_nodes` (line 110) return a handle, for
  the thread with index `i` of the wave of level `d` -/
  thread_curl_easy_init : Nat → Nat → Bool
  /-- the transfer for a node: `some response` when `curl_easy_perform` returns
  `CURLE_OK`, `none` otherwise -/
  curl_easy_perform : String → Option String

/-- `fetch_neighbors` (lines 50-85): the response body, or `"{}"` when the
transfer failed. -/
def fetch_neighbors (curl : Curl) (node : String) : String :=
  match curl.curl_easy_perform node with
  | some response => response
  | none => EMPTY_OBJECT

/-- The loop of lines 95-96: `neighbors.push_back(neighbor.GetString())`. -/
def push_strings : List Value → List String → Except Fault (List String)
  | [], neighbors => Except.ok neighbors
  | neighbor :: rest, neighbors =>
    match neighbor.GetString with
    | Except.error f => Except.error f
    | Except.ok s => push_strings rest (neighbors ++ [c_str s])

/-- `get_neighbors` (lines 88-103).  No call in the `try` block throws, so the
`catch` is dead code. -/
def get_neighbors (Parse : String → Option Value) (json_str : String) :
    Except Fault (List String) :=
  let doc := Document.Parse Parse (c_str json_str)
  match doc.HasMember NEIGHBORS with
  | Except.error f => Except.error f
  | Except.ok false => Except.ok []
  | Except.ok true =>
    match doc.member NEIGHBORS with
    | Except.error f => Except.error f
    | Except.ok field =>
      if field.IsArray then
        match field.GetArray with
        | Except.error f => Except.error f
        | Except.ok elems => push_strings elems []
      else Except.ok []

/-- Line 118: the neighbours a worker obtains for the node `s`. -/
def lookup (Parse : String → Option Value) (curl : Curl) (s : String) :
    Except Fault (List String) :=
  get_neighbors Parse (fetch_neighbors curl s)

/-- The two containers every worker of a wave shares (both passed by reference,
both guarded by `mtx`). -/
structure Shared where
  visited : List String
  next_level : List String
  deriving DecidableEq, Repr

/-- The critical section of `process_nodes` (lines 122-126), executed atomically
under `lock_guard<mutex>` for one neighbour. -/
def visit (sh : Shared) (neighbor : String) : Shared :=
  if neighbor ∈ sh.visited then sh
  else { visited := neighbor :: sh.visited, next_level := sh.next_level ++ [neighbor] }

/-- The loop of `process_nodes` (lines 115-132) run by a single thread with
nothing interleaved.  Nothing inside the `try` throws a `std::exception`, so its
`catch` is never entered. -/
def process_loop (Parse : String → Option Value) (curl : Curl) :
    List String → Shared → Except Fault Shared
  | [], sh => Except.ok sh
  | s :: rest, sh =>
    match lookup Parse curl s with
    | Except.error f => Except.error f
    | Except.ok neighbors => process_loop Parse curl rest (neighbors.foldl visit sh)

/-- `process_nodes` (lines 106-135) run by a single thread with nothing
interleaved; `handle` tells whether its `curl_easy_init()` returned a handle. -/
def process_nodes (Parse : String → Option Value) (curl : Curl) (handle : Bool)
    (nodes_to_process : List String) (sh : Shared) : Except Fault Shared :=
  if handle then process_loop Parse curl nodes_to_process sh
  else Except.ok sh

/-- The neighbours for which a thread running the loop of `process_nodes` enters
the critical section, in the order it does so. -/
def critical_sections (Parse : String → Option Value) (curl : Curl) :
    List String → Except Fault (List String)
  | [] => Except.ok []
  | s :: rest =>
    match lookup Parse curl s with
    | Except.error f => Except.error f
    | Except.ok neighbors =>
      match critical_sections Parse curl rest with
      | Except.error f => Except.error f
      | Except.ok more => Except.ok (neighbors ++ more)

/-- The critical sections of one thread of a wave: none when its
`curl_easy_init()` fails (lines 110-114). -/
def thread_sections (Parse : String → Option Value) (curl : Curl) (handle : Bool)
    (nodes_to_process : List String) : Except Fault (List String) :=
  if handle then critical_sections Parse curl nodes_to_process
  else Except.ok []

/-- The order in which the critical sections of a wave are executed.  `pending`
holds, per thread, the sections it still has to run; the schedule names the
thread that acquires `mtx` next (a name of a thread with nothing left is
skipped), and once the schedule is used up the remaining threads finish one
after the other. -/
def interleave : List Nat → List (List String) → List String
  | [], pending => pending.flatten
  | t :: schedule, pending =>
    match pending.getD t [] with
    | [] => interleave schedule pending
    | neighbor :: rest => neighbor :: interleave schedule (pending.set t rest)

/-- The loop of lines 171-173 from index `i` on:
`node_chunks[i % num_threads].push_back(current_level[i])`. -/
def fill_chunks (num_threads : Nat) :
    List String → Nat → List (List String) → Except Fault (List (List String))
  | [], _, node_chunks => Except.ok node_chunks
  | node :: rest, i, node_chunks =>
    if num_threads = 0 then Except.error Fault.division_by_zero
    else
      fill_chunks num_threads rest (i + 1)
        (node_chunks.set (i % num_threads) (node_chunks.getD (i % num_threads) [] ++ [node]))

/-- Lines 162-173: the number of threads and the chunks of a level. -/
def make_chunks (current_level : List String) : Except Fault (List (List String)) :=
  let num_nodes := current_level.length
  let num_threads := min MAX_THREADS num_nodes
  fill_chunks num_threads current_level 0 (List.replicate num_threads [])

/-- Lines 178-186 from thread index `i` on: the critical sections of the threads
launched on the remaining chunks. -/
def launch_threads (Parse : String → Option Value) (curl : Curl) (d : Nat) :
    List (List String) → Nat → Except Fault (List (List String))
  | [], _ => Except.ok []
  | chunk :: rest, i =>
    match thread_sections Parse curl (curl.thread_curl_easy_init d i) chunk with
    | Except.error f => Except.error f
    | Except.ok sections =>
      match launch_threads Parse curl d rest (i + 1) with
      | Except.error f => Except.error f
      | Except.ok others => Except.ok (sections :: others)

/-- The variables of `parallel_bfs` that live across iterations. -/
structure State where
  levels : List (List String)
  visited : List String
  deriving DecidableEq, Repr

/-- One iteration of the loop of `parallel_bfs` (lines 154-193) for the level
index `d`, the wave being run in the order `schedule`. -/
def level_step (Parse : String → Option Value) (curl : Curl) (schedule : List Nat)
    (d : Nat) (st : State) : Except Fault State :=
  let levels := st.levels ++ [[]]
  let current_level := levels.getD d []
  let next_level := levels.getD (d + 1) []
  match make_chunks current_level with
  | Except.error f => Except.error f
  | Except.ok node_chunks =>
    match launch_threads Parse curl d node_chunks 0 with
    | Except.error f => Except.error f
    | Except.ok pending =>
      let sh := (interleave schedule pending).foldl visit
        { visited := st.visited, next_level := next_level }
      Except.ok { levels := levels.set (d + 1) sh.next_level, visited := sh.visited }

/-- The loop `for (int d = 0; d < depth; d++)` with `n` iterations left. -/
def bfs_loop (Parse : String → Option Value) (curl : Curl) (scheduler : Nat → List Nat) :
    Nat → Nat → State → Except Fault State
  | 0, _, st => Except.ok st
  | n + 1, d, st =>
    match level_step Parse curl (scheduler d) d st with
    | Except.error f => Except.error f
    | Except.ok st1 => bfs_loop Parse curl scheduler n (d + 1) st1

/-- `parallel_bfs` (lines 141-197).  `scheduler d` is the schedule of the wave of
level `d`. -/
def parallel_bfs (Parse : String → Option Value) (curl : Curl) (scheduler : Nat → List Nat)
    (start : String) (depth : Int) : Except Fault (List (List String)) :=
  if curl.curl_easy_init then
    match bfs_loop Parse curl scheduler depth.toNat 0
        { levels := [[start]], visited := [start] } with
    | Except.error f => Except.error f
    | Except.ok st => Except.ok st.levels
  else Except.ok []

/-! ## Sample environments -/

/-- The rapidjson parser on the payloads of the examples: the object with the
given `"neighbors"` array for the well-formed payloads (the escape `\u0000` of
JSON denotes the character NUL), the empty object for `"{}"`, the empty array for
`"[]"`, a number for `"5"`, and a parse error for anything else (the empty text in
particular). -/
def sampleParse (text : String) : Option Value :=
  if text = "\x7b\"neighbors\":[\"B\",\"C\"]\x7d" then
    some (Value.object [(NEIGHBORS, Value.array [Value.string "B", Value.string "C"])])
  else if text = "\x7b\"neighbors\":[\"D\"]\x7d" then
    some (Value.object [(NEIGHBORS, Value.array [Value.string "D"])])
  else if text = "\x7b\"neighbors\":[]\x7d" then
    some (Value.object [(NEIGHBORS, Value.array [])])
  else if text = "\x7b\"neighbors\":[\"E\"]\x7d" then
    some (Value.object [(NEIGHBORS, Value.array [Value.string "E"])])
  else if text = "\x7b\"neighbors\":[\"X\"]\x7d" then
    some (Value.object [(NEIGHBORS, Value.array [Value.string "X"])])
  else if text = "\x7b\"neighbors\":[\"Y\"]\x7d" then
    some (Value.object [(NEIGHBORS, Value.array [Value.string "Y"])])
  else if text = "\x7b\"neighbors\":[\"a\\u0000b\"]\x7d" then
    some (Value.object [(NEIGHBORS, Value.array [Value.string "a\x00b"])])
  else if text = EMPTY_OBJECT then some (Value.object [])
  else if text = "[]" then some (Value.array [])
  else if text = "5" then some Value.number
  else none

/-- The stub service of the scenario `A -> B, C`, `B -> D`, `C -> D`; `D` has no
neighbours. -/
def diamondPerform (node : String) : Option String :=
  if node = "A" then some "\x7b\"neighbors\":[\"B\",\"C\"]\x7d"
  else if node = "B" then some "\x7b\"neighbors\":[\"D\"]\x7d"
  else if node = "C" then some "\x7b\"neighbors\":[\"D\"]\x7d"
  else some "\x7b\"neighbors\":[]\x7d"

/-- libcurl working throughout against the stub service of the scenario. -/
def diamondCurl : Curl :=
  { curl_easy_init := true
    thread_curl_easy_init := fun _ _ => true
    curl_easy_perform := diamondPerform }

/-- The same stub service, with `curl_easy_init()` of `parallel_bfs` returning no
handle. -/
def noHandleCurl : Curl :=
  { diamondCurl with curl_easy_init := false }

/-- The graph of the scenario as a function. -/
def diamondN (node : String) : List String :=
  if node = "A" then ["B", "C"]
  else if node = "B" then ["D"]
  else if node = "C" then ["D"]
  else []

/-- A stub service for the graph `A -> B, C`, `B -> D`, `C -> E`, `D -> X`,
`E -> Y`. -/
def forkPerform (node : String) : Option String :=
  if node = "A" then some "\x7b\"neighbors\":[\"B\",\"C\"]\x7d"
  else if node = "B" then some "\x7b\"neighbors\":[\"D\"]\x7d"
  else if node = "C" then some "\x7b\"neighbors\":[\"E\"]\x7d"
  else if node = "D" then some "\x7b\"neighbors\":[\"X\"]\x7d"
  else if node = "E" then some "\x7b\"neighbors\":[\"Y\"]\x7d"
  else some "\x7b\"neighbors\":[]\x7d"

/-- libcurl against that service, where thread 0 of the wave of level 2 gets no
handle from `curl_easy_init()`. -/
def forkCurl : Curl :=
  { curl_easy_init := true
    thread_curl_easy_init := fun d i => !(d == 2 && i == 0)
    curl_easy_perform := forkPerform }

/-- The stub service of the scenario with no worker thread getting a handle from
`curl_easy_init()`. -/
def noThreadCurl : Curl :=
  { diamondCurl with thread_curl_easy_init := fun _ _ => false }

/-- A stub service in which `A` has the one neighbour `a NUL b` and every other
node has none. -/
def nulPerform (node : String) : Option String :=
  if node = "A" then some "\x7b\"neighbors\":[\"a\\u0000b\"]\x7d"
  else some "\x7b\"neighbors\":[]\x7d"

/-- libcurl working throughout against that service. -/
def nulCurl : Curl :=
  { curl_easy_init := true
    thread_curl_easy_init := fun _ _ => true
    curl_easy_perform := nulPerform }

/-- The graph of that service as a function. -/
def nulN (node : String) : List String :=
  if node = "A" then ["a\x00b"] else []

/-- libcurl working throughout against the stub service of the fork graph. -/
def forkWorkingCurl : Curl :=
  { curl_easy_init := true
    thread_curl_easy_init := fun _ _ => true
    curl_easy_perform := forkPerform }

/-! ## Notions used to state the properties -/

/-- The lookup service never fails and always returns a well-formed neighbour
list, the one of the graph `N`: for every node the transfer succeeds and its body
parses to an object whose `"neighbors"` member is the list of the strings `N s`. -/
def Serves (Parse : String → Option Value) (curl : Curl) (N : String → List String) :
    Prop :=
  ∀ s, ∃ body members,
    curl.curl_easy_perform s = some body ∧
    Parse (c_str body) = some (Value.object members) ∧
    FindMember NEIGHBORS members = some (Value.array ((N s).map Value.string))

/-- The environment `curl` in which the transfers for the nodes of `F` fail. -/
def with_failures (curl : Curl) (F : String → Bool) : Curl :=
  { curl with
    curl_easy_perform := fun s => if F s then none else curl.curl_easy_perform s }

/-- The environment `curl` in which the transfers for the nodes of `F` succeed
with the response `payload`. -/
def with_payload (curl : Curl) (F : String → Bool) (payload : String) : Curl :=
  { curl with
    curl_easy_perform := fun s => if F s then some payload else curl.curl_easy_perform s }

/-- `Interleaving pending order`: `order` runs every critical section of `pending`
exactly once, those of each thread in the order of that thread. -/
inductive Interleaving : List (List String) → List String → Prop where
  | done {pending : List (List String)} :
      (∀ w ∈ pending, w = []) → Interleaving pending []
  | step {pending : List (List String)} {t : Nat} {neighbor : String}
      {rest order : List String} :
      pending.getD t [] = neighbor :: rest → Interleaving (pending.set t rest) order →
      Interleaving pending (neighbor :: order)

/-- `Reach N start n x`: there is a path of `n` edges of the graph `N` from `start`
to `x`. -/
inductive Reach (N : String → List String) (start : String) : Nat → String → Prop where
  | start : Reach N start 0 start
  | step {n : Nat} {u v : String} : Reach N start n u → v ∈ N u → Reach N start (n + 1) v

/-- The shortest-path distance from `start` to `x` in the graph `N` is `d`: there is
a path of `d` edges and none of fewer. -/
def AtDistance (N : String → List String) (start : String) (d : Nat) (x : String) : Prop :=
  Reach N start d x ∧ ∀ k, k < d → ¬ Reach N start k x

/-! ## The critical section -/

theorem visit_visited (sh : Shared) (x y : String) :
    y ∈ (visit sh x).visited ↔ y ∈ sh.visited ∨ y = x := by
  unfold visit
  by_cases h : x ∈ sh.visited
  · simp only [h, if_true]
    constructor
    · exact Or.inl
    · rintro (h1 | h1)
      · exact h1
      · exact h1 ▸ h
  · simp only [h, if_false, List.mem_cons]
    tauto

theorem visit_next_level (sh : Shared) (x y : String) :
    y ∈ (visit sh x).next_level ↔ y ∈ sh.next_level ∨ (y = x ∧ x ∉ sh.visited) := by
  unfold visit
  by_cases h : x ∈ sh.visited
  · simp [h]
  · simp [h]

theorem foldl_visit_visited (xs : List String) :
    ∀ (sh : Shared) (y : String),
      y ∈ (xs.foldl visit sh).visited ↔ y ∈ sh.visited ∨ y ∈ xs := by
  induction xs with
  | nil => intro sh y; simp
  | cons x xs ih =>
    intro sh y
    rw [List.foldl_cons, ih, visit_visited, List.mem_cons]
    tauto

theorem foldl_visit_next_level (xs : List String) :
    ∀ (sh : Shared) (y : String),
      y ∈ (xs.foldl visit sh).next_level ↔
        y ∈ sh.next_level ∨ (y ∈ xs ∧ y ∉ sh.visited) := by
  induction xs with
  | nil => intro sh y; simp
  | cons x xs ih =>
    intro sh y
    rw [List.foldl_cons, ih, visit_next_level, visit_visited, List.mem_cons]
    by_cases hyx : y = x
    · subst hyx; tauto
    · tauto

theorem visit_nodup (sh : Shared) (x : String) (hn : sh.next_level.Nodup)
    (hs : ∀ y ∈ sh.next_level, y ∈ sh.visited) :
    (visit sh x).next_level.Nodup ∧
      ∀ y ∈ (visit sh x).next_level, y ∈ (visit sh x).visited := by
  unfold visit
  by_cases h : x ∈ sh.visited
  · simp only [h, if_true]
    exact ⟨hn, hs⟩
  · simp only [h, if_false]
    refine ⟨?_, ?_⟩
    · rw [List.nodup_append]
      refine ⟨hn, List.nodup_singleton x, ?_⟩
      intro y hy hy1
      rw [List.mem_singleton] at hy1
      subst hy1
      exact h (hs y hy)
    · intro y hy
      rw [List.mem_append, List.mem_singleton] at hy
      rcases hy with hy | hy
      · exact List.mem_cons_of_mem _ (hs y hy)
      · subst hy; exact List.mem_cons_self _ _

theorem foldl_visit_nodup (xs : List String) :
    ∀ (sh : Shared), sh.next_level.Nodup → (∀ y ∈ sh.next_level, y ∈ sh.visited) →
      (xs.foldl visit sh).next_level.Nodup := by
  induction xs with
  | nil => intro sh hn _; simpa using hn
  | cons x xs ih =>
    intro sh hn hs
    rw [List.foldl_cons]
    exact ih (visit sh x) (visit_nodup sh x hn hs).1 (visit_nodup sh x hn hs).2

/-! ## One iteration of the loop -/

/-- With `d + 1` levels collected, `levels[d]` is the last level collected,
`levels[d+1]` the empty level just pushed, and writing it appends a level. -/
theorem level_step_eq (Parse : String → Option Value) (curl : Curl) (schedule : List Nat)
    (d : Nat) (st : State) (hlen : st.levels.length = d + 1) :
    level_step Parse curl schedule d st =
      match make_chunks (st.levels.getD d []) with
      | Except.error f => Except.error f
      | Except.ok node_chunks =>
        match launch_threads Parse curl d node_chunks 0 with
        | Except.error f => Except.error f
        | Except.ok pending =>
          Except.ok
            { levels := st.levels ++
                [((interleave schedule pending).foldl visit
                  { visited := st.visited, next_level := [] }).next_level]
              visited := ((interleave schedule pending).foldl visit
                  { visited := st.visited, next_level := [] }).visited } := by
  have h1 : (st.levels ++ [[]]).getD d [] = st.levels.getD d [] := by
    rw [List.getD_eq_getElem?_getD, List.getD_eq_getElem?_getD,
      List.getElem?_append_left (by omega)]
  have h2 : (st.levels ++ [[]]).getD (d + 1) [] = ([] : List String) := by
    rw [List.getD_eq_getElem?_getD, List.getElem?_append_right (by omega)]
    simp [hlen]
  have h3 : ∀ x : List String, (st.levels ++ [[]]).set (d + 1) x = st.levels ++ [x] := by
    intro x
    rw [List.set_append_right _ _ (by omega)]
    simp [hlen]
  simp only [level_step, h1, h2, h3]

theorem level_step_length (Parse : String → Option Value) (curl : Curl)
    (schedule : List Nat) (d : Nat) (st st1 : State)
    (h : level_step Parse curl schedule d st = Except.ok st1) :
    st1.levels.length = st.levels.length + 1 := by
  simp only [level_step] at h
  split at h
  · exact absurd h (by simp)
  · split at h
    · exact absurd h (by simp)
    · injection h with h
      subst h
      simp

/-- The form of a successful iteration: the new level and the new visited set are
the result of running some sequence of critical sections. -/
theorem level_step_ok (Parse : String → Option Value) (curl : Curl) (schedule : List Nat)
    (d : Nat) (st st1 : State) (hlen : st.levels.length = d + 1)
    (h : level_step Parse curl schedule d st = Except.ok st1) :
    ∃ node_chunks pending,
      make_chunks (st.levels.getD d []) = Except.ok node_chunks ∧
      launch_threads Parse curl d node_chunks 0 = Except.ok pending ∧
      st1.levels = st.levels ++
        [((interleave schedule pending).foldl visit
          { visited := st.visited, next_level := [] }).next_level] ∧
      st1.visited = ((interleave schedule pending).foldl visit
          { visited := st.visited, next_level := [] }).visited := by
  rw [level_step_eq Parse curl schedule d st hlen] at h
  split at h
  · exact absurd h (by simp)
  · rename_i node_chunks hc
    split at h
    · exact absurd h (by simp)
    · rename_i pending hp
      injection h with h
      subst h
      exact ⟨node_chunks, pending, hc, hp, rfl, rfl⟩

/-- An invariant of the iterations is an invariant of the loop. -/
theorem bfs_loop_invariant (Parse : String → Option Value) (curl : Curl)
    (scheduler : Nat → List Nat) (P : Nat → State → Prop)
    (hstep : ∀ d st st1, P d st →
      level_step Parse curl (scheduler d) d st = Except.ok st1 → P (d + 1) st1) :
    ∀ (n d : Nat) (st st1 : State), P d st →
      bfs_loop Parse curl scheduler n d st = Except.ok st1 → P (d + n) st1 := by
  intro n
  induction n with
  | zero =>
    intro d st st1 hP h
    simp only [bfs_loop] at h
    injection h with h
    subst h
    simpa using hP
  | succ n ih =>
    intro d st st1 hP h
    simp only [bfs_loop] at h
    split at h
    · exact absurd h (by simp)
    · rename_i st2 h2
      have := ih (d + 1) st2 st1 (hstep d st st2 hP h2) h
      have e : d + (n + 1) = d + 1 + n := by omega
      rw [e]
      exact this

/-! ## The partition of a level -/

theorem flatten_set_snoc (a : String) :
    ∀ (l : List (List String)) (j : Nat), j < l.length →
      (l.set j (l.getD j [] ++ [a])).flatten.Perm (l.flatten ++ [a]) := by
  intro l
  induction l with
  | nil => intro j hj; simp at hj
  | cons w ws ih =>
    intro j hj
    cases j with
    | zero =>
      simp only [List.set_cons_zero, List.getD_cons_zero, List.flatten_cons,
        List.append_assoc]
      exact List.Perm.append_left w List.perm_append_comm
    | succ j =>
      simp only [List.set_cons_succ, List.getD_cons_succ, List.flatten_cons,
        List.append_assoc]
      exact List.Perm.append_left w (ih j (by simpa using hj))

theorem getD_set_snoc (l : List (List String)) (t j : Nat) (c : List String)
    (ht : t < l.length) :
    (l.set t c).getD j [] = if t = j then c else l.getD j [] := by
  simp only [List.getD_eq_getElem?_getD, List.getElem?_set]
  by_cases h : t = j
  · subst h
    simp [ht]
  · simp [h]

theorem fill_chunks_spec (k : Nat) (hk : k ≠ 0) :
    ∀ (nodes : List String) (i : Nat) (chunks : List (List String)), chunks.length = k →
      ∃ res, fill_chunks k nodes i chunks = Except.ok res ∧ res.length = k ∧
        res.flatten.Perm (chunks.flatten ++ nodes) ∧
        ∀ j, j < k → res.getD j [] = chunks.getD j [] ++
          ((nodes.enumFrom i).filter (fun p => p.1 % k = j)).map Prod.snd := by
  intro nodes
  induction nodes with
  | nil =>
    intro i chunks hlen
    exact ⟨chunks, rfl, hlen, by simp, by simp⟩
  | cons node rest ih =>
    intro i chunks hlen
    have hlt : i % k < chunks.length := by
      rw [hlen]; exact Nat.mod_lt _ (Nat.pos_of_ne_zero hk)
    obtain ⟨res, hres, hl, hperm, hget⟩ :=
      ih (i + 1) (chunks.set (i % k) (chunks.getD (i % k) [] ++ [node]))
        (by rw [List.length_set]; exact hlen)
    refine ⟨res, ?_, hl, ?_, ?_⟩
    · simp only [fill_chunks, hk, if_false]
      exact hres
    · refine hperm.trans ?_
      refine (List.Perm.append_right rest (flatten_set_snoc node chunks (i % k) hlt)).trans ?_
      simp
    · intro j hj
      rw [hget j hj, getD_set_snoc chunks (i % k) j _ hlt]
      by_cases h : i % k = j
      · simp [List.enumFrom_cons, List.filter_cons, h]
      · simp [List.enumFrom_cons, List.filter_cons, h]

theorem replicate_nil_flatten (k : Nat) :
    (List.replicate k ([] : List String)).flatten = [] := by
  induction k with
  | zero => rfl
  | succ k ih => simp [List.replicate_succ, ih]

theorem replicate_nil_getD (k j : Nat) :
    (List.replicate k ([] : List String)).getD j [] = [] := by
  rw [List.getD_eq_getElem?_getD]
  by_cases h : j < k
  · simp [List.getElem?_replicate, h]
  · simp [List.getElem?_replicate, h]

/-- The partition is always built: `num_threads` is zero only for an empty level,
for which the loop body is not run. -/
theorem make_chunks_spec (current_level : List String) :
    ∃ node_chunks, make_chunks current_level = Except.ok node_chunks ∧
      node_chunks.length = min MAX_THREADS current_level.length ∧
      node_chunks.flatten.Perm current_level ∧
      ∀ j, j < min MAX_THREADS current_level.length →
        node_chunks.getD j [] =
          (current_level.enum.filter
            (fun p => p.1 % min MAX_THREADS current_level.length = j)).map Prod.snd := by
  cases current_level with
  | nil =>
    refine ⟨[], ?_, ?_, ?_, ?_⟩
    · simp [make_chunks, fill_chunks, MAX_THREADS]
    · simp
    · simp
    · intro j hj
      simp at hj
  | cons a l =>
    have hk : min MAX_THREADS (a :: l).length ≠ 0 := by
      simp [MAX_THREADS]
    obtain ⟨res, hres, hl, hperm, hget⟩ :=
      fill_chunks_spec _ hk (a :: l) 0 (List.replicate _ []) (List.length_replicate _ _)
    refine ⟨res, hres, hl, ?_, ?_⟩
    · rw [replicate_nil_flatten, List.nil_append] at hperm
      exact hperm
    · intro j hj
      rw [hget j hj, replicate_nil_getD, List.nil_append]
      rfl

theorem make_chunks_mem (current_level : List String) (node_chunks : List (List String))
    (h : make_chunks current_level = Except.ok node_chunks) (x : String) :
    x ∈ node_chunks.flatten ↔ x ∈ current_level := by
  obtain ⟨res, hres, _, hperm, _⟩ := make_chunks_spec current_level
  rw [h] at hres
  injection hres with hres
  subst hres
  exact hperm.mem_iff

/-! ## The wave of threads -/

theorem flatten_set_tail (a : String) (rest : List String) :
    ∀ (l : List (List String)) (t : Nat), l.getD t [] = a :: rest →
      (a :: (l.set t rest).flatten).Perm l.flatten := by
  intro l
  induction l with
  | nil => intro t h; simp at h
  | cons w ws ih =>
    intro t h
    cases t with
    | zero =>
      simp only [List.getD_cons_zero] at h
      subst h
      simp
    | succ t =>
      simp only [List.getD_cons_succ] at h
      simp only [List.set_cons_succ, List.flatten_cons]
      exact List.perm_middle.symm.trans (List.Perm.append_left w (ih t h))

/-- Every schedule runs each pending critical section exactly once. -/
theorem interleave_perm :
    ∀ (schedule : List Nat) (pending : List (List String)),
      (interleave schedule pending).Perm pending.flatten := by
  intro schedule
  induction schedule with
  | nil => intro pending; simp [interleave]
  | cons t schedule ih =>
    intro pending
    simp only [interleave]
    split
    · exact ih pending
    · rename_i neighbor rest h
      exact (List.Perm.cons neighbor (ih _)).trans (flatten_set_tail neighbor rest pending t h)

theorem critical_sections_ok (Parse : String → Option Value) (curl : Curl) :
    ∀ (nodes steps : List String), critical_sections Parse curl nodes = Except.ok steps →
      (∀ u ∈ nodes, ∃ ns, lookup Parse curl u = Except.ok ns ∧ ∀ x ∈ ns, x ∈ steps) ∧
      (∀ x ∈ steps, ∃ u ∈ nodes, ∃ ns, lookup Parse curl u = Except.ok ns ∧ x ∈ ns) := by
  intro nodes
  induction nodes with
  | nil =>
    intro steps h
    simp only [critical_sections] at h
    injection h with h
    subst h
    simp
  | cons s rest ih =>
    intro steps h
    simp only [critical_sections] at h
    split at h
    · exact absurd h (by simp)
    · rename_i neighbors hs
      split at h
      · exact absurd h (by simp)
      · rename_i more hm
        injection h with h
        subst h
        obtain ⟨ih1, ih2⟩ := ih more hm
        constructor
        · intro u hu
          rcases List.mem_cons.1 hu with hu | hu
          · subst hu
            exact ⟨neighbors, hs, fun x hx => List.mem_append_left _ hx⟩
          · obtain ⟨ns, h1, h2⟩ := ih1 u hu
            exact ⟨ns, h1, fun x hx => List.mem_append_right _ (h2 x hx)⟩
        · intro x hx
          rcases List.mem_append.1 hx with hx | hx
          · exact ⟨s, List.mem_cons_self _ _, neighbors, hs, hx⟩
          · obtain ⟨u, hu, ns, h1, h2⟩ := ih2 x hx
            exact ⟨u, List.mem_cons_of_mem _ hu, ns, h1, h2⟩

theorem critical_sections_total (Parse : String → Option Value) (curl : Curl) :
    ∀ (nodes : List String), (∀ u ∈ nodes, ∃ ns, lookup Parse curl u = Except.ok ns) →
      ∃ steps, critical_sections Parse curl nodes = Except.ok steps := by
  intro nodes
  induction nodes with
  | nil => intro _; exact ⟨[], rfl⟩
  | cons s rest ih =>
    intro h
    obtain ⟨ns, hns⟩ := h s (List.mem_cons_self _ _)
    obtain ⟨more, hmore⟩ := ih (fun u hu => h u (List.mem_cons_of_mem _ hu))
    exact ⟨ns ++ more, by simp only [critical_sections, hns, hmore]⟩

/-- A thread running alone performs its critical sections in order. -/
theorem process_loop_eq (Parse : String → Option Value) (curl : Curl) :
    ∀ (nodes : List String) (sh : Shared),
      process_loop Parse curl nodes sh =
        match critical_sections Parse curl nodes with
        | Except.error f => Except.error f
        | Except.ok steps => Except.ok (steps.foldl visit sh) := by
  intro nodes
  induction nodes with
  | nil => intro sh; rfl
  | cons s rest ih =>
    intro sh
    simp only [process_loop, critical_sections]
    cases hs : lookup Parse curl s with
    | error f => rfl
    | ok neighbors =>
      simp only [ih]
      cases hm : critical_sections Parse curl rest with
      | error f => rfl
      | ok more => simp [List.foldl_append]

/-- A wave of a single thread runs the critical sections of that thread in its
own order, whatever the schedule. -/
theorem interleave_single :
    ∀ (schedule : List Nat) (sections : List String),
      interleave schedule [sections] = sections := by
  intro schedule
  induction schedule with
  | nil => intro sections; simp [interleave]
  | cons t schedule ih =>
    intro sections
    cases t with
    | zero =>
      cases sections with
      | nil => simp [interleave, ih]
      | cons a rest => simp [interleave, ih]
    | succ t => simp [interleave, ih]

/-- The interleaving model agrees with `process_nodes` on a thread running alone:
it performs the thread's critical sections in order on the shared containers. -/
theorem process_nodes_eq (Parse : String → Option Value) (curl : Curl) (handle : Bool)
    (schedule : List Nat) (nodes : List String) (sh : Shared) :
    process_nodes Parse curl handle nodes sh =
      match thread_sections Parse curl handle nodes with
      | Except.error f => Except.error f
      | Except.ok sections =>
        Except.ok ((interleave schedule [sections]).foldl visit sh) := by
  simp only [interleave_single]
  unfold process_nodes thread_sections
  cases handle with
  | true => simp only [if_true]; exact process_loop_eq Parse curl nodes sh
  | false => rfl

theorem launch_threads_sound (Parse : String → Option Value) (curl : Curl) (d : Nat) :
    ∀ (node_chunks : List (List String)) (i : Nat) (pending : List (List String)),
      launch_threads Parse curl d node_chunks i = Except.ok pending →
      ∀ x ∈ pending.flatten, ∃ u ∈ node_chunks.flatten,
        ∃ ns, lookup Parse curl u = Except.ok ns ∧ x ∈ ns := by
  intro node_chunks
  induction node_chunks with
  | nil =>
    intro i pending h
    simp only [launch_threads] at h
    injection h with h
    subst h
    simp
  | cons chunk rest ih =>
    intro i pending h
    simp only [launch_threads] at h
    split at h
    · exact absurd h (by simp)
    · rename_i sections hs
      split at h
      · exact absurd h (by simp)
      · rename_i others ho
        injection h with h
        subst h
        intro x hx
        rw [List.flatten_cons, List.mem_append] at hx
        rcases hx with hx | hx
        · unfold thread_sections at hs
          split at hs
          · obtain ⟨u, hu, ns, h1, h2⟩ := (critical_sections_ok Parse curl chunk sections hs).2 x hx
            exact ⟨u, by rw [List.flatten_cons]; exact List.mem_append_left _ hu, ns, h1, h2⟩
          · injection hs with hs
            subst hs
            simp at hx
        · obtain ⟨u, hu, ns, h1, h2⟩ := ih (i + 1) others ho x hx
          exact ⟨u, by rw [List.flatten_cons]; exact List.mem_append_right _ hu, ns, h1, h2⟩

theorem launch_threads_complete (Parse : String → Option Value) (curl : Curl) (d : Nat)
    (hthreads : ∀ i, curl.thread_curl_easy_init d i = true) :
    ∀ (node_chunks : List (List String)) (i : Nat) (pending : List (List String)),
      launch_threads Parse curl d node_chunks i = Except.ok pending →
      ∀ u ∈ node_chunks.flatten,
        ∃ ns, lookup Parse curl u = Except.ok ns ∧ ∀ x ∈ ns, x ∈ pending.flatten := by
  intro node_chunks
  induction node_chunks with
  | nil => intro i pending _ u hu; simp at hu
  | cons chunk rest ih =>
    intro i pending h
    simp only [launch_threads] at h
    split at h
    · exact absurd h (by simp)
    · rename_i sections hs
      split at h
      · exact absurd h (by simp)
      · rename_i others ho
        injection h with h
        subst h
        intro u hu
        rw [List.flatten_cons, List.mem_append] at hu
        rcases hu with hu | hu
        · simp only [thread_sections, hthreads, if_true] at hs
          obtain ⟨ns, h1, h2⟩ := (critical_sections_ok Parse curl chunk sections hs).1 u hu
          exact ⟨ns, h1, fun x hx => by
            rw [List.flatten_cons]; exact List.mem_append_left _ (h2 x hx)⟩
        · obtain ⟨ns, h1, h2⟩ := ih (i + 1) others ho u hu
          exact ⟨ns, h1, fun x hx => by
            rw [List.flatten_cons]; exact List.mem_append_right _ (h2 x hx)⟩

theorem launch_threads_total (Parse : String → Option Value) (curl : Curl) (d : Nat) :
    ∀ (node_chunks : List (List String)) (i : Nat),
      (∀ u ∈ node_chunks.flatten, ∃ ns, lookup Parse curl u = Except.ok ns) →
      ∃ pending, launch_threads Parse curl d node_chunks i = Except.ok pending := by
  intro node_chunks
  induction node_chunks with
  | nil => intro i _; exact ⟨[], rfl⟩
  | cons chunk rest ih =>
    intro i h
    have h1 : ∃ sections,
        thread_sections Parse curl (curl.thread_curl_easy_init d i) chunk =
          Except.ok sections := by
      unfold thread_sections
      split
      · exact critical_sections_total Parse curl chunk (fun u hu =>
          h u (by rw [List.flatten_cons]; exact List.mem_append_left _ hu))
      · exact ⟨[], rfl⟩
    obtain ⟨sections, hs⟩ := h1
    obtain ⟨others, ho⟩ := ih (i + 1) (fun u hu =>
      h u (by rw [List.flatten_cons]; exact List.mem_append_right _ hu))
    exact ⟨sections :: others, by simp only [launch_threads, hs, ho]⟩

/-- An iteration returns when the lookups of the nodes of the current level do. -/
theorem level_step_total (Parse : String → Option Value) (curl : Curl) (schedule : List Nat)
    (d : Nat) (st : State) (hlen : st.levels.length = d + 1)
    (hans : ∀ u ∈ st.levels.getD d [], ∃ ns, lookup Parse curl u = Except.ok ns) :
    ∃ st1, level_step Parse curl schedule d st = Except.ok st1 := by
  rw [level_step_eq Parse curl schedule d st hlen]
  obtain ⟨node_chunks, hc, _, hperm, _⟩ := make_chunks_spec (st.levels.getD d [])
  obtain ⟨pending, hp⟩ := launch_threads_total Parse curl d node_chunks 0
    (fun u hu => hans u (hperm.mem_iff.1 hu))
  simp only [hc, hp]
  exact ⟨_, rfl⟩

theorem bfs_loop_total (Parse : String → Option Value) (curl : Curl)
    (scheduler : Nat → List Nat)
    (hans : ∀ s, ∃ ns, lookup Parse curl s = Except.ok ns) :
    ∀ (n d : Nat) (st : State), st.levels.length = d + 1 →
      ∃ st1, bfs_loop Parse curl scheduler n d st = Except.ok st1 := by
  intro n
  induction n with
  | zero => intro d st _; exact ⟨st, rfl⟩
  | succ n ih =>
    intro d st hlen
    obtain ⟨st2, h2⟩ := level_step_total Parse curl (scheduler d) d st hlen
      (fun u _ => hans u)
    obtain ⟨st1, h1⟩ := ih (d + 1) st2
      (by rw [level_step_length Parse curl (scheduler d) d st st2 h2, hlen])
    exact ⟨st1, by simp only [bfs_loop, h2, h1]⟩

theorem bfs_loop_length (Parse : String → Option Value) (curl : Curl)
    (scheduler : Nat → List Nat) (n d : Nat) (st st1 : State)
    (hlen : st.levels.length = d + 1)
    (h : bfs_loop Parse curl scheduler n d st = Except.ok st1) :
    st1.levels.length = d + n + 1 :=
  bfs_loop_invariant Parse curl scheduler (fun e s => s.levels.length = e + 1)
    (fun e s s1 hs h1 => by
      have h2 := level_step_length Parse curl (scheduler e) e s s1 h1
      simp only at hs ⊢
      omega)
    n d st st1 hlen h

/-- The form of a result of `parallel_bfs` obtained with a handle. -/
theorem parallel_bfs_ok (Parse : String → Option Value) (curl : Curl)
    (scheduler : Nat → List Nat) (start : String) (depth : Int)
    (levels : List (List String)) (hinit : curl.curl_easy_init = true)
    (h : parallel_bfs Parse curl scheduler start depth = Except.ok levels) :
    ∃ st, bfs_loop Parse curl scheduler depth.toNat 0
        { levels := [[start]], visited := [start] } = Except.ok st ∧ st.levels = levels := by
  simp only [parallel_bfs, hinit, if_true] at h
  split at h
  · exact absurd h (by simp)
  · rename_i st hst
    injection h with h
    exact ⟨st, hst, h⟩

/-! ## Invariants of the traversal -/

theorem mem_getD_flatten (x : String) :
    ∀ (l : List (List String)) (i : Nat), x ∈ l.getD i [] → x ∈ l.flatten := by
  intro l
  induction l with
  | nil => intro i h; simp at h
  | cons w ws ih =>
    intro i h
    rw [List.flatten_cons, List.mem_append]
    cases i with
    | zero => exact Or.inl (by simpa using h)
    | succ i => exact Or.inr (ih i (by simpa using h))

/-- Every node collected is visited, no node is collected twice, and the first
level is the start node. -/
theorem bfs_loop_wf (Parse : String → Option Value) (curl : Curl)
    (scheduler : Nat → List Nat) (start : String) (n : Nat) (st : State)
    (h : bfs_loop Parse curl scheduler n 0 { levels := [[start]], visited := [start] } =
      Except.ok st) :
    st.levels.length = n + 1 ∧ st.levels.flatten.Nodup ∧
      (∀ x ∈ st.levels.flatten, x ∈ st.visited) ∧ ∃ tail, st.levels = [start] :: tail := by
  have key := bfs_loop_invariant Parse curl scheduler
    (fun d s => s.levels.length = d + 1 ∧ s.levels.flatten.Nodup ∧
      (∀ x ∈ s.levels.flatten, x ∈ s.visited) ∧ ∃ tail, s.levels = [start] :: tail)
    (fun d s s1 hs h1 => by
      obtain ⟨hlen, hnd, hsub, tail, htail⟩ := hs
      obtain ⟨_, pending, _, _, hl, hv⟩ := level_step_ok Parse curl (scheduler d) d s s1 hlen h1
      refine ⟨by rw [hl]; simp [hlen], ?_, ?_, tail ++ [_], by rw [hl, htail]; rfl⟩
      · rw [hl, List.flatten_append, List.nodup_append]
        refine ⟨hnd, ?_, ?_⟩
        · simp only [List.flatten_cons, List.flatten_nil, List.append_nil]
          exact foldl_visit_nodup _ _ List.nodup_nil (by simp)
        · intro x hx hx1
          simp only [List.flatten_cons, List.flatten_nil, List.append_nil] at hx1
          rw [foldl_visit_next_level] at hx1
          rcases hx1 with hx1 | hx1
          · simp at hx1
          · exact hx1.2 (hsub x hx)
      · intro x hx
        rw [hv, foldl_visit_visited]
        rw [hl, List.flatten_append, List.mem_append] at hx
        rcases hx with hx | hx
        · exact Or.inl (hsub x hx)
        · simp only [List.flatten_cons, List.flatten_nil, List.append_nil] at hx
          rw [foldl_visit_next_level] at hx
          rcases hx with hx | hx
          · simp at hx
          · exact Or.inr hx.1)
    n 0 { levels := [[start]], visited := [start] } st
    ⟨rfl, by simp, by simp, [], rfl⟩ h
  simpa using key

theorem interleave_nil : ∀ (schedule : List Nat), interleave schedule [] = [] := by
  intro schedule
  induction schedule with
  | nil => rfl
  | cons t schedule ih => simp [interleave, ih]

theorem make_chunks_nil : make_chunks [] = Except.ok [] := rfl

/-- The iteration on an empty current level appends an empty level and changes
nothing else. -/
theorem level_step_empty (Parse : String → Option Value) (curl : Curl)
    (schedule : List Nat) (d : Nat) (st : State) (hlen : st.levels.length = d + 1)
    (hempty : st.levels.getD d [] = []) :
    level_step Parse curl schedule d st =
      Except.ok { levels := st.levels ++ [[]], visited := st.visited } := by
  rw [level_step_eq Parse curl schedule d st hlen, hempty, make_chunks_nil]
  simp only [launch_threads, interleave_nil, List.foldl_nil]

theorem getD_append_last (l : List (List String)) (w : List String) :
    (l ++ [w]).getD l.length [] = w := by
  rw [List.getD_eq_getElem?_getD, List.getElem?_append_right (le_refl _)]
  simp

theorem getD_append_init (l : List (List String)) (w : List String) (i : Nat)
    (hi : i < l.length) : (l ++ [w]).getD i [] = l.getD i [] := by
  rw [List.getD_eq_getElem?_getD, List.getD_eq_getElem?_getD,
    List.getElem?_append_left hi]

theorem bfs_loop_empty (Parse : String → Option Value) (curl : Curl)
    (scheduler : Nat → List Nat) :
    ∀ (n d : Nat) (st : State), st.levels.length = d + 1 → st.levels.getD d [] = [] →
      bfs_loop Parse curl scheduler n d st =
        Except.ok { levels := st.levels ++ List.replicate n [], visited := st.visited } := by
  intro n
  induction n with
  | zero => intro d st _ _; simp [bfs_loop]
  | succ n ih =>
    intro d st hlen hempty
    simp only [bfs_loop, level_step_empty Parse curl (scheduler d) d st hlen hempty]
    rw [ih (d + 1) _ (by simp [hlen])
      (by
        have := getD_append_last st.levels []
        rw [hlen] at this
        exact this)]
    simp [List.replicate_succ]

/-- In a result, the levels after an empty level are empty. -/
theorem bfs_loop_empty_after (Parse : String → Option Value) (curl : Curl)
    (scheduler : Nat → List Nat) (start : String) (n : Nat) (st : State)
    (h : bfs_loop Parse curl scheduler n 0 { levels := [[start]], visited := [start] } =
      Except.ok st) :
    ∀ a b, a ≤ b → b ≤ n → st.levels.getD a [] = [] → st.levels.getD b [] = [] := by
  have key := bfs_loop_invariant Parse curl scheduler
    (fun d s => s.levels.length = d + 1 ∧
      ∀ a b, a ≤ b → b ≤ d → s.levels.getD a [] = [] → s.levels.getD b [] = [])
    (fun d s s1 hs h1 => by
      obtain ⟨hlen, hmono⟩ := hs
      refine ⟨by rw [level_step_length Parse curl (scheduler d) d s s1 h1, hlen], ?_⟩
      intro a b hab hb ha
      by_cases hbd : b ≤ d
      · obtain ⟨_, _, _, _, hl, _⟩ := level_step_ok Parse curl (scheduler d) d s s1 hlen h1
        rw [hl, getD_append_init _ _ _ (by omega)] at ha
        rw [hl, getD_append_init _ _ _ (by omega)]
        exact hmono a b hab hbd ha
      · have hb1 : b = d + 1 := by omega
        subst hb1
        by_cases had : a = d + 1
        · subst had; exact ha
        · have hcur : s.levels.getD d [] = [] := by
            obtain ⟨_, _, _, _, hl, _⟩ := level_step_ok Parse curl (scheduler d) d s s1 hlen h1
            rw [hl, getD_append_init _ _ _ (by omega)] at ha
            exact hmono a d (by omega) (le_refl _) ha
          have h2 := level_step_empty Parse curl (scheduler d) d s hlen hcur
          rw [h1] at h2
          injection h2 with h2
          subst h2
          have := getD_append_last s.levels []
          rw [hlen] at this
          exact this)
    n 0 { levels := [[start]], visited := [start] } st
    ⟨rfl, by
      intro a b hab hb ha
      have : a = 0 := by omega
      subst this
      simp at ha⟩ h
  simpa using key.2

/-! ## The sample service -/

theorem diamond_lookup_total :
    ∀ s, ∃ ns, lookup sampleParse diamondCurl s = Except.ok ns := by
  intro s
  by_cases hA : s = "A"
  · subst hA; exact ⟨["B", "C"], by rfl⟩
  · by_cases hB : s = "B"
    · subst hB; exact ⟨["D"], by rfl⟩
    · by_cases hC : s = "C"
      · subst hC; exact ⟨["D"], by rfl⟩
      · refine ⟨[], ?_⟩
        have h : fetch_neighbors diamondCurl s = "\x7b\"neighbors\":[]\x7d" := by
          simp [fetch_neighbors, diamondCurl, diamondPerform, hA, hB, hC]
        rw [lookup, h]
        rfl

/-! ## Number of levels (C1) -/

/-- C1, as amended: when `curl_easy_init()` of `parallel_bfs` returns a handle and
`depth >= 0`, every result `parallel_bfs` returns has exactly `depth + 1` levels, and
it does return one when the lookup of every node returns (no payload trips a
rapidjson assertion). -/
theorem parallel_bfs_level_count (Parse : String → Option Value) (curl : Curl)
    (scheduler : Nat → List Nat) (start : String) (depth : Int)
    (hinit : curl.curl_easy_init = true) (hdepth : 0 ≤ depth) :
    (∀ levels, parallel_bfs Parse curl scheduler start depth = Except.ok levels →
      (levels.length : Int) = depth + 1) ∧
    ((∀ s, ∃ ns, lookup Parse curl s = Except.ok ns) →
      ∃ levels, parallel_bfs Parse curl scheduler start depth = Except.ok levels) := by
  constructor
  · intro levels h
    obtain ⟨st, hst, hl⟩ := parallel_bfs_ok Parse curl scheduler start depth levels hinit h
    have := bfs_loop_length Parse curl scheduler depth.toNat 0
      { levels := [[start]], visited := [start] } st rfl hst
    rw [← hl, this]
    have h2 := Int.toNat_of_nonneg hdepth
    omega
  · intro hans
    obtain ⟨st, hst⟩ := bfs_loop_total Parse curl scheduler hans depth.toNat 0
      { levels := [[start]], visited := [start] } rfl
    exact ⟨st.levels, by simp only [parallel_bfs, hinit, if_true, hst]⟩

/-- Witness of C1 on the diamond scenario with depth 2. -/
theorem parallel_bfs_level_count_witness :
    diamondCurl.curl_easy_init = true ∧ (0 : Int) ≤ 2 ∧
      ∃ levels, parallel_bfs sampleParse diamondCurl (fun _ => [1, 0]) "A" 2 =
        Except.ok levels ∧ (levels.length : Int) = 2 + 1 :=
  ⟨rfl, by decide,
    ((parallel_bfs_level_count sampleParse diamondCurl (fun _ => [1, 0]) "A" 2 rfl
      (by decide)).2 diamond_lookup_total).elim
      (fun levels hl => ⟨levels, hl,
        (parallel_bfs_level_count sampleParse diamondCurl (fun _ => [1, 0]) "A" 2 rfl
          (by decide)).1 levels hl⟩)⟩

/-- Counterexample to C1 as stated: without a handle `parallel_bfs("A", 2)` returns
the empty vector, which has 0 levels and not 3. -/
theorem no_handle_no_levels :
    parallel_bfs sampleParse noHandleCurl (fun _ => []) "A" 2 = Except.ok [] ∧
      (([] : List (List String)).length : Int) ≠ 2 + 1 :=
  ⟨rfl, by decide⟩

/-! ## No node twice (C2) -/

/-- C2: in every result of `parallel_bfs` no node identifier occurs twice, be it in
two levels or inside one level; in particular the start node occurs in no level
after level 0. -/
theorem parallel_bfs_nodup (Parse : String → Option Value) (curl : Curl)
    (scheduler : Nat → List Nat) (start : String) (depth : Int)
    (levels : List (List String))
    (h : parallel_bfs Parse curl scheduler start depth = Except.ok levels) :
    levels.flatten.Nodup ∧ ∀ d, 0 < d → start ∉ levels.getD d [] := by
  by_cases hinit : curl.curl_easy_init = true
  · obtain ⟨st, hst, hl⟩ := parallel_bfs_ok Parse curl scheduler start depth levels hinit h
    obtain ⟨_, hnd, _, tail, htail⟩ :=
      bfs_loop_wf Parse curl scheduler start depth.toNat st hst
    rw [hl] at hnd htail
    refine ⟨hnd, ?_⟩
    intro d hd hmem
    rw [htail] at hnd hmem
    obtain ⟨e, rfl⟩ : ∃ e, d = e + 1 := ⟨d - 1, by omega⟩
    rw [List.getD_cons_succ] at hmem
    have h1 := mem_getD_flatten start tail e hmem
    simp only [List.flatten_cons, List.singleton_append, List.nodup_cons] at hnd
    exact hnd.1 h1
  · simp only [parallel_bfs, hinit] at h
    injection h with h
    subst h
    simp

/-- Witness of C2, the scenario of the specification: start `A`, depth 2,
`A -> B, C`, `B -> D`, `C -> D`; the result is `[[A], [B, C], [D]]`, with `D` once. -/
theorem parallel_bfs_nodup_witness :
    parallel_bfs sampleParse diamondCurl (fun _ => [1, 0]) "A" 2 =
        Except.ok [["A"], ["B", "C"], ["D"]] ∧
      ([["A"], ["B", "C"], ["D"]] : List (List String)).flatten.Nodup ∧
      ∀ d, 0 < d → "A" ∉ ([["A"], ["B", "C"], ["D"]] : List (List String)).getD d [] :=
  ⟨rfl, parallel_bfs_nodup sampleParse diamondCurl (fun _ => [1, 0]) "A" 2
    [["A"], ["B", "C"], ["D"]] rfl⟩

/-! ## Level 0 (C7) -/

/-- C7, as amended: when `curl_easy_init()` of `parallel_bfs` returns a handle,
level 0 of every result is `[start]` whatever the lookups return, and for depth 0
the result is `[[start]]` whatever the parser and the transfers would do, those
under which any lookup would end the process included: no lookup is made. -/
theorem parallel_bfs_level_zero (Parse : String → Option Value) (curl : Curl)
    (scheduler : Nat → List Nat) (start : String)
    (hinit : curl.curl_easy_init = true) :
    (∀ depth levels, parallel_bfs Parse curl scheduler start depth = Except.ok levels →
      levels.head? = some [start]) ∧
    parallel_bfs Parse curl scheduler start 0 = Except.ok [[start]] := by
  constructor
  · intro depth levels h
    obtain ⟨st, hst, hl⟩ := parallel_bfs_ok Parse curl scheduler start depth levels hinit h
    obtain ⟨_, _, _, tail, htail⟩ :=
      bfs_loop_wf Parse curl scheduler start depth.toNat st hst
    rw [← hl, htail]
    rfl
  · simp [parallel_bfs, hinit, bfs_loop]

/-- Witness of C7: the diamond scenario, and depth 0 with a parser that rejects
every payload. -/
theorem parallel_bfs_level_zero_witness :
    diamondCurl.curl_easy_init = true ∧
      ([["A"], ["B", "C"], ["D"]] : List (List String)).head? = some ["A"] ∧
      parallel_bfs (fun _ => none) diamondCurl (fun _ => []) "A" 0 = Except.ok [["A"]] :=
  ⟨rfl,
    (parallel_bfs_level_zero sampleParse diamondCurl (fun _ => [1, 0]) "A" rfl).1 2
      [["A"], ["B", "C"], ["D"]] rfl,
    (parallel_bfs_level_zero (fun _ => none) diamondCurl (fun _ => []) "A" rfl).2⟩

/-- Counterexample to C7 as stated: without a handle `parallel_bfs("A", 0)` returns
the empty vector, which is not `[["A"]]` and has no level 0. -/
theorem no_handle_no_level_zero :
    parallel_bfs sampleParse noHandleCurl (fun _ => []) "A" 0 = Except.ok [] ∧
      ([] : List (List String)).head? ≠ some ["A"] ∧
      ([] : List (List String)) ≠ [["A"]] :=
  ⟨rfl, by decide, by decide⟩

/-! ## The partition (C8) -/

/-- C8: for a non-empty level of `n` nodes the partition is built with
`k = min(MAX_THREADS, n) = min(8, n) > 0` chunks; chunk `j` is the subsequence of
the level at the indices `i` with `i % k = j` (so the node at index `i` is in chunk
`i % k` and in no other), and the chunks together are a permutation of the level. -/
theorem make_chunks_round_robin (current_level : List String)
    (hne : current_level ≠ []) :
    ∃ node_chunks, make_chunks current_level = Except.ok node_chunks ∧
      min MAX_THREADS current_level.length = min 8 current_level.length ∧
      0 < min 8 current_level.length ∧
      node_chunks.length = min 8 current_level.length ∧
      (∀ j, j < min 8 current_level.length →
        node_chunks.getD j [] =
          (current_level.enum.filter
            (fun p => p.1 % min 8 current_level.length = j)).map Prod.snd) ∧
      node_chunks.flatten.Perm current_level := by
  obtain ⟨node_chunks, hc, hl, hperm, hget⟩ := make_chunks_spec current_level
  refine ⟨node_chunks, hc, rfl, ?_, hl, hget, hperm⟩
  have : 0 < current_level.length := List.length_pos.2 hne
  omega

/-- Witness of C8: eleven nodes over eight chunks. -/
theorem make_chunks_round_robin_witness :
    ["a", "b", "c", "d", "e", "f", "g", "h", "i", "j", "k"] ≠ ([] : List String) ∧
    ∃ node_chunks,
      make_chunks ["a", "b", "c", "d", "e", "f", "g", "h", "i", "j", "k"] =
        Except.ok node_chunks ∧
      min MAX_THREADS ["a", "b", "c", "d", "e", "f", "g", "h", "i", "j", "k"].length =
        min 8 ["a", "b", "c", "d", "e", "f", "g", "h", "i", "j", "k"].length ∧
      0 < min 8 ["a", "b", "c", "d", "e", "f", "g", "h", "i", "j", "k"].length ∧
      node_chunks.length = min 8 ["a", "b", "c", "d", "e", "f", "g", "h", "i", "j", "k"].length ∧
      (∀ j, j < min 8 ["a", "b", "c", "d", "e", "f", "g", "h", "i", "j", "k"].length →
        node_chunks.getD j [] =
          ((["a", "b", "c", "d", "e", "f", "g", "h", "i", "j", "k"] : List String).enum.filter
            (fun p => p.1 %
              min 8 ["a", "b", "c", "d", "e", "f", "g", "h", "i", "j", "k"].length = j)).map
            Prod.snd) ∧
      node_chunks.flatten.Perm ["a", "b", "c", "d", "e", "f", "g", "h", "i", "j", "k"] :=
  ⟨by decide,
    make_chunks_round_robin ["a", "b", "c", "d", "e", "f", "g", "h", "i", "j", "k"]
      (by decide)⟩

/-! ## Empty levels (C10) -/

/-- C10: with `d + 1` levels collected and level `d` empty, the iteration computes
`min(MAX_THREADS, 0) = 0` threads, builds no chunk without the fault of `i % 0`,
launches no thread, and appends an empty level, leaving the visited set as it is;
the loop runs any number `n` of further iterations to completion, each appending
an empty level; and so, in every result of `parallel_bfs`, the levels after an empty
level are empty. -/
theorem empty_level_stays_empty (Parse : String → Option Value) (curl : Curl)
    (scheduler : Nat → List Nat) (d : Nat) (st : State)
    (hlen : st.levels.length = d + 1) (hempty : st.levels.getD d [] = []) :
    min MAX_THREADS (st.levels.getD d []).length = 0 ∧
    make_chunks (st.levels.getD d []) = Except.ok [] ∧
    launch_threads Parse curl d [] 0 = Except.ok [] ∧
    level_step Parse curl (scheduler d) d st =
      Except.ok { levels := st.levels ++ [[]], visited := st.visited } ∧
    (∀ n, bfs_loop Parse curl scheduler n d st =
      Except.ok { levels := st.levels ++ List.replicate n [], visited := st.visited }) ∧
    (∀ start depth levels,
      parallel_bfs Parse curl scheduler start depth = Except.ok levels →
      ∀ a b : Nat, a ≤ b → (b : Int) ≤ depth →
        levels.getD a [] = [] → levels.getD b [] = []) := by
  refine ⟨by rw [hempty]; rfl, by rw [hempty]; rfl, rfl,
    level_step_empty Parse curl (scheduler d) d st hlen hempty,
    fun n => bfs_loop_empty Parse curl scheduler n d st hlen hempty, ?_⟩
  intro start depth levels h a b hab hb ha
  by_cases hinit : curl.curl_easy_init = true
  · obtain ⟨st1, hst, hl⟩ := parallel_bfs_ok Parse curl scheduler start depth levels hinit h
    rw [← hl] at ha ⊢
    exact bfs_loop_empty_after Parse curl scheduler start depth.toNat st1 hst a b hab
      (by omega) ha
  · simp only [parallel_bfs, hinit] at h
    injection h with h
    subst h
    rfl

/-- Witness of C10: the diamond scenario after its last non-empty level. -/
theorem empty_level_stays_empty_witness :
    ([["A"], ["B", "C"], ["D"], []] : List (List String)).length = 3 + 1 ∧
    ([["A"], ["B", "C"], ["D"], []] : List (List String)).getD 3 [] = [] ∧
    level_step sampleParse diamondCurl [1, 0] 3
        { levels := [["A"], ["B", "C"], ["D"], []], visited := ["D", "C", "B", "A"] } =
      Except.ok { levels := [["A"], ["B", "C"], ["D"], []] ++ [[]],
                  visited := ["D", "C", "B", "A"] } ∧
    bfs_loop sampleParse diamondCurl (fun _ => [1, 0]) 2 3
        { levels := [["A"], ["B", "C"], ["D"], []], visited := ["D", "C", "B", "A"] } =
      Except.ok { levels := [["A"], ["B", "C"], ["D"], []] ++ List.replicate 2 [],
                  visited := ["D", "C", "B", "A"] } :=
  ⟨rfl, rfl,
    (empty_level_stays_empty sampleParse diamondCurl (fun _ => [1, 0]) 3
      { levels := [["A"], ["B", "C"], ["D"], []], visited := ["D", "C", "B", "A"] }
      rfl rfl).2.2.2.1,
    (empty_level_stays_empty sampleParse diamondCurl (fun _ => [1, 0]) 3
      { levels := [["A"], ["B", "C"], ["D"], []], visited := ["D", "C", "B", "A"] }
      rfl rfl).2.2.2.2.1 2⟩

/-! ## The decoder (C5, C6) -/

theorem c_str_of_no_nul (s : String) (h : Char.ofNat 0 ∉ s.data) : c_str s = s := by
  have h1 : s.data.takeWhile (fun c => c != Char.ofNat 0) = s.data := by
    rw [List.takeWhile_eq_self_iff]
    intro c hc
    simp only [bne_iff_ne, ne_eq]
    intro hc0
    exact h (hc0 ▸ hc)
  unfold c_str
  rw [h1]

theorem push_strings_strings :
    ∀ (strs neighbors : List String),
      push_strings (strs.map Value.string) neighbors =
        Except.ok (neighbors ++ strs.map c_str) := by
  intro strs
  induction strs with
  | nil => intro neighbors; simp [push_strings]
  | cons s rest ih =>
    intro neighbors
    simp only [List.map_cons, push_strings, Value.GetString, ih]
    simp

/-- The decoder on an object with a `"neighbors"` list of strings: each string
up to its first NUL, in order. -/
theorem get_neighbors_c_strings (Parse : String → Option Value) (json_str : String)
    (members : List (String × Value)) (strs : List String)
    (hparse : Parse (c_str json_str) = some (Value.object members))
    (hfield : FindMember NEIGHBORS members = some (Value.array (strs.map Value.string))) :
    get_neighbors Parse json_str = Except.ok (strs.map c_str) := by
  simp only [get_neighbors, Document.Parse, hparse, Value.HasMember, hfield,
    Option.isSome_some, Value.member, Value.IsArray, if_true, Value.GetArray,
    push_strings_strings, List.nil_append]

/-- The decoder when the document is not an object (after a parse error it is
null): `HasMember` fails its `IsObject()` assertion. -/
theorem get_neighbors_not_object (Parse : String → Option Value) (json_str : String)
    (h : ∀ members, Parse (c_str json_str) ≠ some (Value.object members)) :
    get_neighbors Parse json_str = Except.error Fault.assertion := by
  unfold get_neighbors Document.Parse
  cases hp : Parse (c_str json_str) with
  | none => rfl
  | some root =>
    cases root with
    | object members => exact absurd hp (h members)
    | _ => rfl

/-- The decoder on an object without a `"neighbors"` member, or whose first
`"neighbors"` member is not an array: the empty sequence. -/
theorem get_neighbors_no_list (Parse : String → Option Value) (json_str : String)
    (members : List (String × Value))
    (hparse : Parse (c_str json_str) = some (Value.object members))
    (hfield : ∀ elems, FindMember NEIGHBORS members ≠ some (Value.array elems)) :
    get_neighbors Parse json_str = Except.ok [] := by
  unfold get_neighbors Document.Parse
  simp only [hparse, Value.HasMember, Value.member]
  cases hf : FindMember NEIGHBORS members with
  | none => rfl
  | some field =>
    cases field with
    | array elems => exact absurd hf (hfield elems)
    | _ => rfl

/-- C5, the code at the failing inputs: on the empty payload, on unparseable
text and on payloads whose root is an array or a number, `get_neighbors` does not
return the empty sequence: `doc.HasMember` is called on a document that is not an
object and fails its assertion. -/
theorem get_neighbors_malformed :
    get_neighbors sampleParse "" = Except.error Fault.assertion ∧
    get_neighbors sampleParse "<html>404</html>" = Except.error Fault.assertion ∧
    get_neighbors sampleParse "[]" = Except.error Fault.assertion ∧
    get_neighbors sampleParse "5" = Except.error Fault.assertion :=
  ⟨rfl, rfl, rfl, rfl⟩

/-- C6, as amended: for a payload that parses to an object whose `"neighbors"`
member is a list of strings none of which contains the character NUL,
`get_neighbors` returns exactly those strings, in order and with multiplicity. -/
theorem get_neighbors_strings (Parse : String → Option Value) (json_str : String)
    (members : List (String × Value)) (strs : List String)
    (hparse : Parse (c_str json_str) = some (Value.object members))
    (hfield : FindMember NEIGHBORS members = some (Value.array (strs.map Value.string)))
    (hnul : ∀ s ∈ strs, Char.ofNat 0 ∉ s.data) :
    get_neighbors Parse json_str = Except.ok strs := by
  rw [get_neighbors_c_strings Parse json_str members strs hparse hfield]
  congr 1
  rw [List.map_congr_left (fun s hs => c_str_of_no_nul s (hnul s hs))]
  simp

/-- Witness of C6: a payload listing `B` and `C`. -/
theorem get_neighbors_strings_witness :
    sampleParse (c_str "\x7b\"neighbors\":[\"B\",\"C\"]\x7d") =
        some (Value.object [(NEIGHBORS, Value.array (["B", "C"].map Value.string))]) ∧
    FindMember NEIGHBORS [(NEIGHBORS, Value.array (["B", "C"].map Value.string))] =
        some (Value.array (["B", "C"].map Value.string)) ∧
    (∀ s ∈ ["B", "C"], Char.ofNat 0 ∉ s.data) ∧
    get_neighbors sampleParse "\x7b\"neighbors\":[\"B\",\"C\"]\x7d" =
        Except.ok ["B", "C"] :=
  ⟨rfl, rfl, by decide,
    get_neighbors_strings sampleParse "\x7b\"neighbors\":[\"B\",\"C\"]\x7d"
      [(NEIGHBORS, Value.array (["B", "C"].map Value.string))] ["B", "C"] rfl rfl
      (by decide)⟩

/-- Counterexample to C6 as stated: the payload `{"neighbors":["a\u0000b"]}` lists
the one string `a NUL b`, and `get_neighbors` returns the string `a`. -/
theorem nul_cuts_neighbor :
    sampleParse (c_str "\x7b\"neighbors\":[\"a\\u0000b\"]\x7d") =
        some (Value.object [(NEIGHBORS, Value.array (["a\x00b"].map Value.string))]) ∧
    get_neighbors sampleParse "\x7b\"neighbors\":[\"a\\u0000b\"]\x7d" =
        Except.ok ["a"] ∧
    (["a"] : List String) ≠ ["a\x00b"] :=
  ⟨rfl, rfl, by decide⟩

/-! ## Breadth-first levels (C3) -/

theorem reach_zero (N : String → List String) (start x : String)
    (h : Reach N start 0 x) : x = start := by
  cases h
  rfl

theorem reach_succ (N : String → List String) (start x : String) (n : Nat)
    (h : Reach N start (n + 1) x) : ∃ u, Reach N start n u ∧ x ∈ N u := by
  cases h with
  | step hu hx => exact ⟨_, hu, hx⟩

/-- With every thread holding a handle, the critical sections of a wave are the
neighbours of the nodes of its chunks. -/
theorem launch_threads_mem (Parse : String → Option Value) (curl : Curl) (d : Nat)
    (hthreads : ∀ i, curl.thread_curl_easy_init d i = true)
    (node_chunks : List (List String)) (i : Nat) (pending : List (List String))
    (h : launch_threads Parse curl d node_chunks i = Except.ok pending) (x : String) :
    x ∈ pending.flatten ↔
      ∃ u ∈ node_chunks.flatten, ∃ ns, lookup Parse curl u = Except.ok ns ∧ x ∈ ns := by
  constructor
  · exact launch_threads_sound Parse curl d node_chunks i pending h x
  · rintro ⟨u, hu, ns, h1, h2⟩
    obtain ⟨ns1, h3, h4⟩ :=
      launch_threads_complete Parse curl d hthreads node_chunks i pending h u hu
    rw [h1] at h3
    injection h3 with h3
    subst h3
    exact h4 x h2

/-- The invariant of breadth-first search is kept by an iteration. -/
theorem level_step_distances (Parse : String → Option Value) (curl : Curl)
    (N : String → List String) (start : String) (schedule : List Nat) (d : Nat)
    (st st1 : State)
    (hthreads : ∀ i, curl.thread_curl_easy_init d i = true)
    (hN : ∀ s, lookup Parse curl s = Except.ok (N s))
    (hlen : st.levels.length = d + 1)
    (hlev : ∀ e, e ≤ d → ∀ x, x ∈ st.levels.getD e [] ↔ AtDistance N start e x)
    (hvis : ∀ x, x ∈ st.visited ↔ ∃ k, k ≤ d ∧ Reach N start k x)
    (h : level_step Parse curl schedule d st = Except.ok st1) :
    st1.levels.length = d + 1 + 1 ∧
    (∀ e, e ≤ d + 1 → ∀ x, x ∈ st1.levels.getD e [] ↔ AtDistance N start e x) ∧
    (∀ x, x ∈ st1.visited ↔ ∃ k, k ≤ d + 1 ∧ Reach N start k x) := by
  obtain ⟨node_chunks, pending, hc, hp, hl, hv⟩ :=
    level_step_ok Parse curl schedule d st st1 hlen h
  have horder : ∀ x, x ∈ interleave schedule pending ↔
      ∃ u, AtDistance N start d u ∧ x ∈ N u := by
    intro x
    rw [(interleave_perm schedule pending).mem_iff,
      launch_threads_mem Parse curl d hthreads node_chunks 0 pending hp x]
    constructor
    · rintro ⟨u, hu, ns, h1, h2⟩
      rw [hN u] at h1
      injection h1 with h1
      subst h1
      rw [make_chunks_mem _ _ hc u] at hu
      exact ⟨u, (hlev d (le_refl _) u).1 hu, h2⟩
    · rintro ⟨u, hu, hx⟩
      exact ⟨u, (make_chunks_mem _ _ hc u).2 ((hlev d (le_refl _) u).2 hu), N u, hN u, hx⟩
  have hnext : ∀ x, x ∈ ((interleave schedule pending).foldl visit
      { visited := st.visited, next_level := [] }).next_level ↔
      AtDistance N start (d + 1) x := by
    intro x
    rw [foldl_visit_next_level]
    simp only [List.not_mem_nil, false_or]
    rw [horder x, hvis x]
    constructor
    · rintro ⟨⟨u, hu, hx⟩, hnot⟩
      refine ⟨Reach.step hu.1 hx, ?_⟩
      intro k hk hr
      exact hnot ⟨k, by omega, hr⟩
    · rintro ⟨hr, hmin⟩
      obtain ⟨u, hu, hx⟩ := reach_succ N start x d hr
      refine ⟨⟨u, ⟨hu, ?_⟩, hx⟩, ?_⟩
      · intro k hk hr1
        exact hmin (k + 1) (by omega) (Reach.step hr1 hx)
      · rintro ⟨k, hk, hr1⟩
        exact hmin k (by omega) hr1
  refine ⟨by rw [hl]; simp [hlen], ?_, ?_⟩
  · intro e he x
    by_cases hed : e ≤ d
    · rw [hl, getD_append_init _ _ _ (by omega)]
      exact hlev e hed x
    · have he1 : e = d + 1 := by omega
      subst he1
      have := getD_append_last st.levels (((interleave schedule pending).foldl visit
        { visited := st.visited, next_level := [] }).next_level)
      rw [hlen] at this
      rw [hl, this]
      exact hnext x
  · intro x
    rw [hv, foldl_visit_visited, hvis x, horder x]
    constructor
    · rintro (⟨k, hk, hr⟩ | ⟨u, hu, hx⟩)
      · exact ⟨k, by omega, hr⟩
      · exact ⟨d + 1, le_refl _, Reach.step hu.1 hx⟩
    · rintro ⟨k, hk, hr⟩
      by_cases hkd : k ≤ d
      · exact Or.inl ⟨k, hkd, hr⟩
      · have hk1 : k = d + 1 := by omega
        subst hk1
        by_cases hex : ∃ j, j ≤ d ∧ Reach N start j x
        · exact Or.inl hex
        · right
          have hdist : AtDistance N start (d + 1) x :=
            ⟨hr, fun j hj hrj => hex ⟨j, by omega, hrj⟩⟩
          have := (hnext x).2 hdist
          rw [foldl_visit_next_level] at this
          simp only [List.not_mem_nil, false_or] at this
          exact (horder x).1 this.1

theorem bfs_loop_distances (Parse : String → Option Value) (curl : Curl)
    (N : String → List String) (start : String) (scheduler : Nat → List Nat)
    (hthreads : ∀ d i, curl.thread_curl_easy_init d i = true)
    (hN : ∀ s, lookup Parse curl s = Except.ok (N s)) (n : Nat) (st : State)
    (h : bfs_loop Parse curl scheduler n 0 { levels := [[start]], visited := [start] } =
      Except.ok st) :
    ∀ e, e ≤ n → ∀ x, x ∈ st.levels.getD e [] ↔ AtDistance N start e x := by
  have key := bfs_loop_invariant Parse curl scheduler
    (fun d s => s.levels.length = d + 1 ∧
      (∀ e, e ≤ d → ∀ x, x ∈ s.levels.getD e [] ↔ AtDistance N start e x) ∧
      (∀ x, x ∈ s.visited ↔ ∃ k, k ≤ d ∧ Reach N start k x))
    (fun d s s1 hs h1 =>
      level_step_distances Parse curl N start (scheduler d) d s s1 (hthreads d) hN
        hs.1 hs.2.1 hs.2.2 h1)
    n 0 { levels := [[start]], visited := [start] } st
    ⟨rfl, by
      intro e he x
      have he0 : e = 0 := by omega
      subst he0
      simp only [List.getD_cons_zero, List.mem_singleton]
      constructor
      · intro hx
        subst hx
        exact ⟨Reach.start, fun k hk => absurd hk (by omega)⟩
      · intro hx
        exact reach_zero N start x hx.1, by
      intro x
      simp only [List.mem_singleton]
      constructor
      · intro hx
        subst hx
        exact ⟨0, le_refl _, Reach.start⟩
      · rintro ⟨k, hk, hr⟩
        have hk0 : k = 0 := by omega
        subst hk0
        exact reach_zero N start x hr⟩ h
  intro e he x
  exact key.2.1 e (by omega) x

theorem diamond_lookup : ∀ s, lookup sampleParse diamondCurl s = Except.ok (diamondN s) := by
  intro s
  by_cases hA : s = "A"
  · subst hA; rfl
  · by_cases hB : s = "B"
    · subst hB; rfl
    · by_cases hC : s = "C"
      · subst hC; rfl
      · have h : fetch_neighbors diamondCurl s = "\x7b\"neighbors\":[]\x7d" := by
          simp [fetch_neighbors, diamondCurl, diamondPerform, hA, hB, hC]
        have h1 : diamondN s = [] := by simp [diamondN, hA, hB, hC]
        rw [lookup, h, h1]
        rfl

/-! ## Schedules (C9) -/

theorem interleaving_perm (pending : List (List String)) (order : List String)
    (h : Interleaving pending order) : order.Perm pending.flatten := by
  induction h with
  | done hall => rw [List.flatten_eq_nil_iff.2 hall]
  | step hget _ ih =>
    exact (List.Perm.cons _ ih).trans (flatten_set_tail _ _ _ _ hget)

theorem interleaving_cons_nil (pending : List (List String)) (order : List String)
    (h : Interleaving pending order) : Interleaving ([] :: pending) order := by
  induction h with
  | done hall =>
    refine Interleaving.done ?_
    intro w hw
    rcases List.mem_cons.1 hw with hw | hw
    · exact hw
    · exact hall w hw
  | @step pending1 t neighbor rest order1 hget _ ih =>
    have h1 : ([] :: pending1).getD (t + 1) [] = neighbor :: rest := by
      rw [List.getD_cons_succ]; exact hget
    exact Interleaving.step h1 (by rw [List.set_cons_succ]; exact ih)

theorem interleaving_flatten :
    ∀ (pending : List (List String)), Interleaving pending pending.flatten := by
  intro pending
  induction pending with
  | nil => exact Interleaving.done (by simp)
  | cons w ws ih =>
    induction w with
    | nil => exact interleaving_cons_nil ws _ ih
    | cons a rest ihw =>
      have h1 : ((a :: rest) :: ws).getD 0 [] = a :: rest := rfl
      exact Interleaving.step h1 ihw

/-- Every schedule yields an interleaving of the pending critical sections. -/
theorem interleave_sound :
    ∀ (schedule : List Nat) (pending : List (List String)),
      Interleaving pending (interleave schedule pending) := by
  intro schedule
  induction schedule with
  | nil => intro pending; exact interleaving_flatten pending
  | cons t schedule ih =>
    intro pending
    simp only [interleave]
    split
    · exact ih pending
    · rename_i neighbor rest h
      exact Interleaving.step h (ih _)

/-- Every interleaving of the pending critical sections is the one of some
schedule. -/
theorem interleave_complete (pending : List (List String)) (order : List String)
    (h : Interleaving pending order) : ∃ schedule, interleave schedule pending = order := by
  induction h with
  | done hall => exact ⟨[], by simp only [interleave]; exact List.flatten_eq_nil_iff.2 hall⟩
  | @step pending1 t neighbor rest order1 hget _ ih =>
    obtain ⟨schedule, hs⟩ := ih
    exact ⟨t :: schedule, by simp only [interleave, hget, hs]⟩

/-- Two orders with the same elements leave the same sets in the shared
containers. -/
theorem foldl_visit_same (o1 o2 : List String) (sh1 sh2 : Shared)
    (ho : ∀ x, x ∈ o1 ↔ x ∈ o2) (hv : ∀ x, x ∈ sh1.visited ↔ x ∈ sh2.visited)
    (hn : ∀ x, x ∈ sh1.next_level ↔ x ∈ sh2.next_level) (x : String) :
    (x ∈ (o1.foldl visit sh1).next_level ↔ x ∈ (o2.foldl visit sh2).next_level) ∧
    (x ∈ (o1.foldl visit sh1).visited ↔ x ∈ (o2.foldl visit sh2).visited) := by
  rw [foldl_visit_next_level, foldl_visit_next_level, foldl_visit_visited,
    foldl_visit_visited, ho x, hv x, hn x]
  exact ⟨Iff.rfl, Iff.rfl⟩

theorem level_step_schedules (Parse : String → Option Value) (curl : Curl)
    (schedule1 schedule2 : List Nat) (d : Nat) (st1 st2 r1 : State)
    (hthreads : ∀ i, curl.thread_curl_easy_init d i = true)
    (hlen1 : st1.levels.length = d + 1) (hlen2 : st2.levels.length = d + 1)
    (hlev : ∀ e x, x ∈ st1.levels.getD e [] ↔ x ∈ st2.levels.getD e [])
    (hvis : ∀ x, x ∈ st1.visited ↔ x ∈ st2.visited)
    (h : level_step Parse curl schedule1 d st1 = Except.ok r1) :
    ∃ r2, level_step Parse curl schedule2 d st2 = Except.ok r2 ∧
      (∀ e x, x ∈ r1.levels.getD e [] ↔ x ∈ r2.levels.getD e []) ∧
      (∀ x, x ∈ r1.visited ↔ x ∈ r2.visited) := by
  obtain ⟨chunks1, pending1, hc1, hp1, hl1, hv1⟩ :=
    level_step_ok Parse curl schedule1 d st1 r1 hlen1 h
  obtain ⟨chunks2, hc2, _, _, _⟩ := make_chunks_spec (st2.levels.getD d [])
  have hchunks : ∀ u, u ∈ chunks1.flatten ↔ u ∈ chunks2.flatten := by
    intro u
    rw [make_chunks_mem _ _ hc1 u, make_chunks_mem _ _ hc2 u]
    exact hlev d u
  obtain ⟨pending2, hp2⟩ := launch_threads_total Parse curl d chunks2 0 (fun u hu => by
    obtain ⟨ns, h1, _⟩ := launch_threads_complete Parse curl d hthreads chunks1 0 pending1
      hp1 u ((hchunks u).2 hu)
    exact ⟨ns, h1⟩)
  have horder : ∀ x, x ∈ interleave schedule1 pending1 ↔ x ∈ interleave schedule2 pending2 := by
    intro x
    rw [(interleave_perm schedule1 pending1).mem_iff,
      (interleave_perm schedule2 pending2).mem_iff,
      launch_threads_mem Parse curl d hthreads chunks1 0 pending1 hp1 x,
      launch_threads_mem Parse curl d hthreads chunks2 0 pending2 hp2 x]
    constructor
    · rintro ⟨u, hu, rest⟩
      exact ⟨u, (hchunks u).1 hu, rest⟩
    · rintro ⟨u, hu, rest⟩
      exact ⟨u, (hchunks u).2 hu, rest⟩
  have hsame := foldl_visit_same (interleave schedule1 pending1)
    (interleave schedule2 pending2) { visited := st1.visited, next_level := [] }
    { visited := st2.visited, next_level := [] } horder hvis (fun _ => Iff.rfl)
  refine ⟨State.mk
      (st2.levels ++ [((interleave schedule2 pending2).foldl visit
        { visited := st2.visited, next_level := [] }).next_level])
      ((interleave schedule2 pending2).foldl visit
        { visited := st2.visited, next_level := [] }).visited,
    by rw [level_step_eq Parse curl schedule2 d st2 hlen2]; simp only [hc2, hp2], ?_, ?_⟩
  · intro e x
    rw [hl1]
    by_cases hed : e ≤ d
    · rw [getD_append_init _ _ _ (by omega), getD_append_init _ _ _ (by omega)]
      exact hlev e x
    · by_cases he1 : e = d + 1
      · have a1 := getD_append_last st1.levels (((interleave schedule1 pending1).foldl visit
          { visited := st1.visited, next_level := [] }).next_level)
        have a2 := getD_append_last st2.levels (((interleave schedule2 pending2).foldl visit
          { visited := st2.visited, next_level := [] }).next_level)
        rw [hlen1, ← he1] at a1
        rw [hlen2, ← he1] at a2
        rw [a1, a2]
        exact (hsame x).1
      · rw [List.getD_eq_default _ _ (by simp; omega),
          List.getD_eq_default _ _ (by simp; omega)]
  · intro x
    rw [hv1]
    exact (hsame x).2

theorem bfs_loop_schedules (Parse : String → Option Value) (curl : Curl)
    (scheduler1 scheduler2 : Nat → List Nat)
    (hthreads : ∀ d i, curl.thread_curl_easy_init d i = true) :
    ∀ (n d : Nat) (st1 st2 r1 : State),
      st1.levels.length = d + 1 → st2.levels.length = d + 1 →
      (∀ e x, x ∈ st1.levels.getD e [] ↔ x ∈ st2.levels.getD e []) →
      (∀ x, x ∈ st1.visited ↔ x ∈ st2.visited) →
      bfs_loop Parse curl scheduler1 n d st1 = Except.ok r1 →
      ∃ r2, bfs_loop Parse curl scheduler2 n d st2 = Except.ok r2 ∧
        (∀ e x, x ∈ r1.levels.getD e [] ↔ x ∈ r2.levels.getD e []) ∧
        (∀ x, x ∈ r1.visited ↔ x ∈ r2.visited) := by
  intro n
  induction n with
  | zero =>
    intro d st1 st2 r1 _ _ hlev hvis h
    simp only [bfs_loop] at h
    injection h with h
    subst h
    exact ⟨st2, rfl, hlev, hvis⟩
  | succ n ih =>
    intro d st1 st2 r1 hlen1 hlen2 hlev hvis h
    simp only [bfs_loop] at h
    split at h
    · exact absurd h (by simp)
    · rename_i m1 hm1
      obtain ⟨m2, hm2, hlev2, hvis2⟩ := level_step_schedules Parse curl (scheduler1 d)
        (scheduler2 d) d st1 st2 m1 (hthreads d) hlen1 hlen2 hlev hvis hm1
      obtain ⟨r2, hr2, hres⟩ := ih (d + 1) m1 m2 r1
        (by rw [level_step_length Parse curl _ d st1 m1 hm1, hlen1])
        (by rw [level_step_length Parse curl _ d st2 m2 hm2, hlen2])
        hlev2 hvis2 h
      exact ⟨r2, by simp only [bfs_loop, hm2, hr2], hres⟩

/-- With every thread holding a handle, a traversal that returns under one
scheduler returns under any other, with the same sets of nodes level by level. -/
theorem parallel_bfs_schedules (Parse : String → Option Value) (curl : Curl)
    (scheduler1 scheduler2 : Nat → List Nat) (start : String) (depth : Int)
    (hthreads : ∀ d i, curl.thread_curl_easy_init d i = true)
    (levels1 : List (List String))
    (h : parallel_bfs Parse curl scheduler1 start depth = Except.ok levels1) :
    ∃ levels2, parallel_bfs Parse curl scheduler2 start depth = Except.ok levels2 ∧
      levels1.length = levels2.length ∧
      ∀ d x, x ∈ levels1.getD d [] ↔ x ∈ levels2.getD d [] := by
  by_cases hinit : curl.curl_easy_init = true
  · obtain ⟨r1, hr1, hl1⟩ := parallel_bfs_ok Parse curl scheduler1 start depth levels1 hinit h
    obtain ⟨r2, hr2, hlev, _⟩ := bfs_loop_schedules Parse curl scheduler1 scheduler2 hthreads
      depth.toNat 0 { levels := [[start]], visited := [start] }
      { levels := [[start]], visited := [start] } r1 rfl rfl (fun _ _ => Iff.rfl)
      (fun _ => Iff.rfl) hr1
    refine ⟨r2.levels, by simp only [parallel_bfs, hinit, if_true, hr2], ?_, ?_⟩
    · rw [← hl1, bfs_loop_length Parse curl scheduler1 depth.toNat 0
          { levels := [[start]], visited := [start] } r1 rfl hr1,
        bfs_loop_length Parse curl scheduler2 depth.toNat 0
          { levels := [[start]], visited := [start] } r2 rfl hr2]
    · rw [← hl1]
      exact hlev
  · simp only [parallel_bfs, hinit] at h ⊢
    injection h with h
    subst h
    exact ⟨[], rfl, rfl, fun _ _ => Iff.rfl⟩

/-- C9, as amended: (1) for any pending critical sections and any state of the
shared containers, every two interleavings leave the same set in `next_level` and
the same set in `visited`; (2) when every worker thread gets its handle from
`curl_easy_init()`, a traversal that returns under one scheduler returns under
every other scheduler, with as many levels and, level by level, the same set of
nodes. -/
theorem schedule_independence (Parse : String → Option Value) (curl : Curl)
    (scheduler1 scheduler2 : Nat → List Nat) (start : String) (depth : Int)
    (hthreads : ∀ d i, curl.thread_curl_easy_init d i = true) :
    (∀ pending sh order1 order2, Interleaving pending order1 → Interleaving pending order2 →
      ∀ x, (x ∈ (order1.foldl visit sh).next_level ↔ x ∈ (order2.foldl visit sh).next_level) ∧
        (x ∈ (order1.foldl visit sh).visited ↔ x ∈ (order2.foldl visit sh).visited)) ∧
    (∀ levels1, parallel_bfs Parse curl scheduler1 start depth = Except.ok levels1 →
      ∃ levels2, parallel_bfs Parse curl scheduler2 start depth = Except.ok levels2 ∧
        levels1.length = levels2.length ∧
        ∀ d x, x ∈ levels1.getD d [] ↔ x ∈ levels2.getD d []) := by
  constructor
  · intro pending sh order1 order2 h1 h2 x
    exact foldl_visit_same order1 order2 sh sh
      (fun y => ((interleaving_perm pending order1 h1).trans
        (interleaving_perm pending order2 h2).symm).mem_iff)
      (fun _ => Iff.rfl) (fun _ => Iff.rfl) x
  · intro levels1 h
    exact parallel_bfs_schedules Parse curl scheduler1 scheduler2 start depth hthreads levels1 h

/-- Witness of C9: the fork graph served without any failure, under two
schedulers that order level 2 differently. -/
theorem schedule_independence_witness :
    (∀ d i, ({ forkCurl with thread_curl_easy_init := fun _ _ => true } : Curl).thread_curl_easy_init
      d i = true) ∧
    parallel_bfs sampleParse { forkCurl with thread_curl_easy_init := fun _ _ => true }
      (fun _ => [0, 1]) "A" 3 = Except.ok [["A"], ["B", "C"], ["D", "E"], ["X", "Y"]] ∧
    ∃ levels2, parallel_bfs sampleParse { forkCurl with thread_curl_easy_init := fun _ _ => true }
        (fun _ => [1, 0]) "A" 3 = Except.ok levels2 ∧
      ([["A"], ["B", "C"], ["D", "E"], ["X", "Y"]] : List (List String)).length = levels2.length ∧
      ∀ d x, x ∈ ([["A"], ["B", "C"], ["D", "E"], ["X", "Y"]] : List (List String)).getD d [] ↔
        x ∈ levels2.getD d [] :=
  ⟨fun _ _ => rfl, rfl,
    (schedule_independence sampleParse { forkCurl with thread_curl_easy_init := fun _ _ => true }
      (fun _ => [0, 1]) (fun _ => [1, 0]) "A" 3 (fun _ _ => rfl)).2
      [["A"], ["B", "C"], ["D", "E"], ["X", "Y"]] rfl⟩

/-- Counterexample to C9 as stated: with the deterministic service of the fork
graph, depth 3, and thread 0 of the wave of level 2 left without a handle, the
scheduler that lets thread 0 go first in every wave yields level 3 = `[Y]` and the
one that lets thread 1 go first yields level 3 = `[X]`. -/
theorem schedule_dependence_without_handle :
    parallel_bfs sampleParse forkCurl (fun _ => [0, 1]) "A" 3 =
      Except.ok [["A"], ["B", "C"], ["D", "E"], ["Y"]] ∧
    parallel_bfs sampleParse forkCurl (fun _ => [1, 0]) "A" 3 =
      Except.ok [["A"], ["B", "C"], ["E", "D"], ["X"]] ∧
    ¬ (∀ x, x ∈ (["Y"] : List String) ↔ x ∈ (["X"] : List String)) :=
  ⟨rfl, rfl, fun h => absurd ((h "Y").1 (by decide)) (by decide)⟩

/-! ## Failed transfers (C4) -/

theorem critical_sections_congr (Parse : String → Option Value) (c1 c2 : Curl)
    (h : ∀ s, lookup Parse c1 s = lookup Parse c2 s) :
    ∀ nodes, critical_sections Parse c1 nodes = critical_sections Parse c2 nodes := by
  intro nodes
  induction nodes with
  | nil => rfl
  | cons s rest ih => simp only [critical_sections, h, ih]

theorem launch_threads_congr (Parse : String → Option Value) (c1 c2 : Curl) (d : Nat)
    (h : ∀ s, lookup Parse c1 s = lookup Parse c2 s)
    (ht : c1.thread_curl_easy_init = c2.thread_curl_easy_init) :
    ∀ node_chunks i,
      launch_threads Parse c1 d node_chunks i = launch_threads Parse c2 d node_chunks i := by
  intro node_chunks
  induction node_chunks with
  | nil => intro i; rfl
  | cons chunk rest ih =>
    intro i
    simp only [launch_threads, thread_sections, ht, critical_sections_congr Parse c1 c2 h, ih]

theorem bfs_loop_congr (Parse : String → Option Value) (c1 c2 : Curl)
    (scheduler : Nat → List Nat)
    (h : ∀ s, lookup Parse c1 s = lookup Parse c2 s)
    (ht : c1.thread_curl_easy_init = c2.thread_curl_easy_init) :
    ∀ n d st, bfs_loop Parse c1 scheduler n d st = bfs_loop Parse c2 scheduler n d st := by
  intro n
  induction n with
  | zero => intro d st; rfl
  | succ n ih =>
    intro d st
    simp only [bfs_loop, level_step, launch_threads_congr Parse c1 c2 d h ht, ih]

/-- The traversal depends on libcurl only through the three outcomes of
`curl_easy_init` and the decoded lookups. -/
theorem parallel_bfs_congr (Parse : String → Option Value) (c1 c2 : Curl)
    (scheduler : Nat → List Nat) (start : String) (depth : Int)
    (h : ∀ s, lookup Parse c1 s = lookup Parse c2 s)
    (ht : c1.thread_curl_easy_init = c2.thread_curl_easy_init)
    (hi : c1.curl_easy_init = c2.curl_easy_init) :
    parallel_bfs Parse c1 scheduler start depth = parallel_bfs Parse c2 scheduler start depth := by
  simp only [parallel_bfs, hi, bfs_loop_congr Parse c1 c2 scheduler h ht]

/-- The payload `"{}"` of a failed transfer decodes to no neighbour. -/
theorem get_neighbors_empty_object (Parse : String → Option Value)
    (hparse : Parse EMPTY_OBJECT = some (Value.object [])) :
    get_neighbors Parse EMPTY_OBJECT = Except.ok [] :=
  get_neighbors_no_list Parse EMPTY_OBJECT []
    (by
      have h : c_str EMPTY_OBJECT = EMPTY_OBJECT := by decide
      rw [h]
      exact hparse)
    (by intro elems h; simp [FindMember] at h)

theorem lookup_with_failures (Parse : String → Option Value) (curl : Curl)
    (F : String → Bool) (hparse : Parse EMPTY_OBJECT = some (Value.object []))
    (s : String) :
    lookup Parse (with_failures curl F) s =
      if F s then Except.ok [] else lookup Parse curl s := by
  by_cases h : F s = true
  · simp only [lookup, fetch_neighbors, with_failures, h, if_true]
    exact get_neighbors_empty_object Parse hparse
  · simp only [lookup, fetch_neighbors, with_failures, h]
    rfl

theorem lookup_with_payload (Parse : String → Option Value) (curl : Curl)
    (F : String → Bool) (payload : String)
    (hpayload : get_neighbors Parse payload = Except.ok []) (s : String) :
    lookup Parse (with_payload curl F payload) s =
      if F s then Except.ok [] else lookup Parse curl s := by
  by_cases h : F s = true
  · simp only [lookup, fetch_neighbors, with_payload, h, if_true]
    exact hpayload
  · simp only [lookup, fetch_neighbors, with_payload, h]
    rfl

/-! ## Breadth-first levels, the statement (C3) -/

/-- A service that serves the graph `N`, whose identifiers are free of NUL, makes
the lookup of every node `s` return `N s`. -/
theorem lookup_of_serves (Parse : String → Option Value) (curl : Curl)
    (N : String → List String) (hserves : Serves Parse curl N)
    (hnul : ∀ s, ∀ x ∈ N s, Char.ofNat 0 ∉ x.data) :
    ∀ s, lookup Parse curl s = Except.ok (N s) := by
  intro s
  obtain ⟨body, members, hbody, hparse, hfield⟩ := hserves s
  have hfetch : fetch_neighbors curl s = body := by
    simp only [fetch_neighbors, hbody]
  rw [lookup, hfetch, get_neighbors_c_strings Parse body members (N s) hparse hfield]
  congr 1
  rw [List.map_congr_left (fun x hx => c_str_of_no_nul x (hnul s x hx))]
  simp

theorem diamond_serves (curl : Curl) (h : curl.curl_easy_perform = diamondPerform) :
    Serves sampleParse curl diamondN := by
  intro s
  rw [h]
  by_cases hA : s = "A"
  · subst hA; exact ⟨_, _, rfl, rfl, rfl⟩
  · by_cases hB : s = "B"
    · subst hB; exact ⟨_, _, rfl, rfl, rfl⟩
    · by_cases hC : s = "C"
      · subst hC; exact ⟨_, _, rfl, rfl, rfl⟩
      · have h1 : diamondN s = [] := by simp [diamondN, hA, hB, hC]
        refine ⟨"\x7b\"neighbors\":[]\x7d", [(NEIGHBORS, Value.array [])], ?_, rfl, ?_⟩
        · simp [diamondPerform, hA, hB, hC]
        · rw [h1]; rfl

theorem diamond_no_nul : ∀ s, ∀ x ∈ diamondN s, Char.ofNat 0 ∉ x.data := by
  intro s x hx
  unfold diamondN at hx
  split at hx
  · simp only [List.mem_cons, List.mem_singleton, List.not_mem_nil, or_false] at hx
    rcases hx with hx | hx <;> subst hx <;> decide
  · split at hx
    · simp only [List.mem_singleton] at hx
      subst hx; decide
    · split at hx
      · simp only [List.mem_singleton] at hx
        subst hx; decide
      · simp at hx

theorem nul_serves : Serves sampleParse nulCurl nulN := by
  intro s
  by_cases hA : s = "A"
  · subst hA; exact ⟨_, _, rfl, rfl, rfl⟩
  · have h1 : nulN s = [] := by simp [nulN, hA]
    refine ⟨"\x7b\"neighbors\":[]\x7d", [(NEIGHBORS, Value.array [])], ?_, rfl, ?_⟩
    · simp [nulCurl, nulPerform, hA]
    · rw [h1]; rfl

/-- C3, as amended: for a lookup service that never fails and serves the
neighbour lists of a graph `N` whose identifiers contain no NUL, when
`curl_easy_init()` returns a handle to `parallel_bfs` and to every worker thread,
then for `depth >= 0` the traversal returns, and for every `d <= depth` the nodes
of level `d` are exactly the nodes at shortest-path distance `d` from `start` in
`N`. -/
theorem parallel_bfs_levels_are_distances (Parse : String → Option Value) (curl : Curl)
    (scheduler : Nat → List Nat) (N : String → List String) (start : String)
    (depth : Int) (hserves : Serves Parse curl N)
    (hnul : ∀ s, ∀ x ∈ N s, Char.ofNat 0 ∉ x.data)
    (hinit : curl.curl_easy_init = true)
    (hthreads : ∀ d i, curl.thread_curl_easy_init d i = true) (hdepth : 0 ≤ depth) :
    ∃ levels, parallel_bfs Parse curl scheduler start depth = Except.ok levels ∧
      ∀ d : Nat, (d : Int) ≤ depth → ∀ x,
        x ∈ levels.getD d [] ↔ AtDistance N start d x := by
  have hN := lookup_of_serves Parse curl N hserves hnul
  obtain ⟨st, hst⟩ := bfs_loop_total Parse curl scheduler (fun s => ⟨N s, hN s⟩)
    depth.toNat 0 { levels := [[start]], visited := [start] } rfl
  refine ⟨st.levels, by simp only [parallel_bfs, hinit, if_true, hst], ?_⟩
  intro d hd x
  exact bfs_loop_distances Parse curl N start scheduler hthreads hN depth.toNat st hst d
    (by omega) x

/-- Witness of C3: the diamond scenario with depth 2. -/
theorem parallel_bfs_levels_are_distances_witness :
    Serves sampleParse diamondCurl diamondN ∧
    (∀ s, ∀ x ∈ diamondN s, Char.ofNat 0 ∉ x.data) ∧
    diamondCurl.curl_easy_init = true ∧
    (∀ d i, diamondCurl.thread_curl_easy_init d i = true) ∧ (0 : Int) ≤ 2 ∧
    ∃ levels, parallel_bfs sampleParse diamondCurl (fun _ => [1, 0]) "A" 2 =
        Except.ok levels ∧
      ∀ d : Nat, (d : Int) ≤ 2 → ∀ x,
        x ∈ levels.getD d [] ↔ AtDistance diamondN "A" d x :=
  ⟨diamond_serves diamondCurl rfl, diamond_no_nul, rfl, fun _ _ => rfl, by decide,
    parallel_bfs_levels_are_distances sampleParse diamondCurl (fun _ => [1, 0]) diamondN "A" 2
      (diamond_serves diamondCurl rfl) diamond_no_nul rfl (fun _ _ => rfl) (by decide)⟩

/-- Counterexample to C3 as stated, the service never failing and serving its
graph in each case.  (1) Without a handle for `parallel_bfs` the result is the
empty vector, so `A`, at distance 0, is in no level 0.  (2) Without handles for
the worker threads the result is `[[A], [], []]`, so `B`, at distance 1, is not in
level 1.  (3) With all handles, the neighbour `a NUL b` of `A` is at distance 1
and level 1 is `[a]`. -/
theorem levels_are_not_distances :
    (Serves sampleParse noHandleCurl diamondN ∧
      parallel_bfs sampleParse noHandleCurl (fun _ => []) "A" 2 = Except.ok [] ∧
      AtDistance diamondN "A" 0 "A" ∧ "A" ∉ ([] : List (List String)).getD 0 []) ∧
    (Serves sampleParse noThreadCurl diamondN ∧
      parallel_bfs sampleParse noThreadCurl (fun _ => []) "A" 2 =
        Except.ok [["A"], [], []] ∧
      AtDistance diamondN "A" 1 "B" ∧
      "B" ∉ ([["A"], [], []] : List (List String)).getD 1 []) ∧
    (Serves sampleParse nulCurl nulN ∧
      parallel_bfs sampleParse nulCurl (fun _ => []) "A" 1 = Except.ok [["A"], ["a"]] ∧
      AtDistance nulN "A" 1 "a\x00b" ∧
      "a\x00b" ∉ ([["A"], ["a"]] : List (List String)).getD 1 []) :=
  ⟨⟨diamond_serves noHandleCurl rfl, rfl,
      ⟨Reach.start, fun k hk => absurd hk (by omega)⟩, by decide⟩,
    ⟨diamond_serves noThreadCurl rfl, rfl,
      ⟨Reach.step Reach.start (by decide), fun k hk hr => by
        have hk0 : k = 0 := by omega
        subst hk0
        exact absurd (reach_zero diamondN "A" "B" hr) (by decide)⟩, by decide⟩,
    ⟨nul_serves, rfl,
      ⟨Reach.step Reach.start (by decide), fun k hk hr => by
        have hk0 : k = 0 := by omega
        subst hk0
        exact absurd (reach_zero nulN "A" "a\x00b" hr) (by decide)⟩, by decide⟩⟩

/-! ## Failed transfers, the statement (C4) -/

theorem fork_lookup_total :
    ∀ s, ∃ ns, lookup sampleParse forkWorkingCurl s = Except.ok ns := by
  intro s
  by_cases hA : s = "A"
  · subst hA; exact ⟨["B", "C"], by rfl⟩
  · by_cases hB : s = "B"
    · subst hB; exact ⟨["D"], by rfl⟩
    · by_cases hC : s = "C"
      · subst hC; exact ⟨["E"], by rfl⟩
      · by_cases hD : s = "D"
        · subst hD; exact ⟨["X"], by rfl⟩
        · by_cases hE : s = "E"
          · subst hE; exact ⟨["Y"], by rfl⟩
          · refine ⟨[], ?_⟩
            have h : fetch_neighbors forkWorkingCurl s = "\x7b\"neighbors\":[]\x7d" := by
              simp [fetch_neighbors, forkWorkingCurl, forkPerform, hA, hB, hC, hD, hE]
            rw [lookup, h]
            rfl

/-- C4, as amended: let `F` be the set of nodes whose transfer fails, `"{}"`
parsing to the empty object, and let `parallel_bfs` get its handle.  Then (1) the
traversal is, under the same scheduler, the very traversal of the service in which
the nodes of `F` answer with a payload of no neighbour, so that their levels are
the same; (2) every result it returns has `depth + 1` levels; (3) it returns one
when the lookups of the nodes outside `F` return; (4) when every worker thread
gets its handle, the two traversals have the same sets of nodes level by level
under any two schedulers; (5) for a node of `F` the fetch yields `"{}"` and the
lookup no neighbour. -/
theorem failed_transfer_is_no_neighbour (Parse : String → Option Value) (curl : Curl)
    (F : String → Bool) (payload : String) (scheduler : Nat → List Nat)
    (start : String) (depth : Int)
    (hinit : curl.curl_easy_init = true) (hdepth : 0 ≤ depth)
    (hparse : Parse EMPTY_OBJECT = some (Value.object []))
    (hpayload : get_neighbors Parse payload = Except.ok []) :
    parallel_bfs Parse (with_failures curl F) scheduler start depth =
      parallel_bfs Parse (with_payload curl F payload) scheduler start depth ∧
    (∀ levels,
      parallel_bfs Parse (with_failures curl F) scheduler start depth = Except.ok levels →
      (levels.length : Int) = depth + 1) ∧
    ((∀ s, F s = false → ∃ ns, lookup Parse curl s = Except.ok ns) →
      ∃ levels,
        parallel_bfs Parse (with_failures curl F) scheduler start depth = Except.ok levels) ∧
    ((∀ d i, curl.thread_curl_easy_init d i = true) →
      ∀ scheduler2 levels1,
        parallel_bfs Parse (with_failures curl F) scheduler start depth = Except.ok levels1 →
        ∃ levels2,
          parallel_bfs Parse (with_payload curl F payload) scheduler2 start depth =
            Except.ok levels2 ∧
          levels1.length = levels2.length ∧
          ∀ d x, x ∈ levels1.getD d [] ↔ x ∈ levels2.getD d []) ∧
    (∀ s, F s = true →
      fetch_neighbors (with_failures curl F) s = EMPTY_OBJECT ∧
      lookup Parse (with_failures curl F) s = Except.ok []) := by
  have heq : ∀ sched, parallel_bfs Parse (with_failures curl F) sched start depth =
      parallel_bfs Parse (with_payload curl F payload) sched start depth := fun sched =>
    parallel_bfs_congr Parse _ _ sched start depth
      (fun s => by
        rw [lookup_with_failures Parse curl F hparse s,
          lookup_with_payload Parse curl F payload hpayload s])
      rfl rfl
  have hi : (with_failures curl F).curl_easy_init = true := hinit
  refine ⟨heq scheduler, ?_, ?_, ?_, ?_⟩
  · intro levels h
    obtain ⟨st, hst, hl⟩ :=
      parallel_bfs_ok Parse (with_failures curl F) scheduler start depth levels hi h
    have := bfs_loop_length Parse (with_failures curl F) scheduler depth.toNat 0
      { levels := [[start]], visited := [start] } st rfl hst
    rw [← hl, this]
    have h2 := Int.toNat_of_nonneg hdepth
    omega
  · intro hrest
    have hans : ∀ s, ∃ ns, lookup Parse (with_failures curl F) s = Except.ok ns := by
      intro s
      rw [lookup_with_failures Parse curl F hparse s]
      by_cases h : F s = true
      · exact ⟨[], by simp [h]⟩
      · obtain ⟨ns, hns⟩ := hrest s (by simpa using h)
        exact ⟨ns, by simp [h, hns]⟩
    obtain ⟨st, hst⟩ := bfs_loop_total Parse (with_failures curl F) scheduler hans
      depth.toNat 0 { levels := [[start]], visited := [start] } rfl
    exact ⟨st.levels, by simp only [parallel_bfs, hi, if_true, hst]⟩
  · intro hthreads scheduler2 levels1 h1
    exact parallel_bfs_schedules Parse (with_payload curl F payload) scheduler scheduler2
      start depth hthreads levels1 (by rw [← heq scheduler]; exact h1)
  · intro s hs
    refine ⟨by simp [fetch_neighbors, with_failures, hs], ?_⟩
    rw [lookup_with_failures Parse curl F hparse s]
    simp [hs]

/-- Witness of C4: the fork graph `A -> B, C`, `B -> D`, `C -> E`, `D -> X`,
`E -> Y` at depth 3 with the transfer for `B` failing.  Without the failure the
result is `[[A], [B, C], [D, E], [X, Y]]`; with it `D` and `X` are lost and the
result is `[[A], [B, C], [E], [Y]]`, four levels, the result of the service in
which `B` has no neighbour. -/
theorem failed_transfer_is_no_neighbour_witness :
    forkWorkingCurl.curl_easy_init = true ∧ (0 : Int) ≤ 3 ∧
    sampleParse EMPTY_OBJECT = some (Value.object []) ∧
    get_neighbors sampleParse "\x7b\"neighbors\":[]\x7d" = Except.ok [] ∧
    parallel_bfs sampleParse forkWorkingCurl (fun _ => [0, 1]) "A" 3 =
      Except.ok [["A"], ["B", "C"], ["D", "E"], ["X", "Y"]] ∧
    parallel_bfs sampleParse (with_failures forkWorkingCurl (fun s => s == "B"))
      (fun _ => [0, 1]) "A" 3 = Except.ok [["A"], ["B", "C"], ["E"], ["Y"]] ∧
    parallel_bfs sampleParse (with_failures forkWorkingCurl (fun s => s == "B"))
        (fun _ => [0, 1]) "A" 3 =
      parallel_bfs sampleParse
        (with_payload forkWorkingCurl (fun s => s == "B") "\x7b\"neighbors\":[]\x7d")
        (fun _ => [0, 1]) "A" 3 ∧
    (([["A"], ["B", "C"], ["E"], ["Y"]] : List (List String)).length : Int) = 3 + 1 ∧
    (∃ levels, parallel_bfs sampleParse
      (with_failures forkWorkingCurl (fun s => s == "B")) (fun _ => [0, 1]) "A" 3 =
        Except.ok levels) ∧
    (∃ levels2, parallel_bfs sampleParse
        (with_payload forkWorkingCurl (fun s => s == "B") "\x7b\"neighbors\":[]\x7d")
        (fun _ => [1, 0]) "A" 3 = Except.ok levels2 ∧
      ([["A"], ["B", "C"], ["E"], ["Y"]] : List (List String)).length = levels2.length ∧
      ∀ d x, x ∈ ([["A"], ["B", "C"], ["E"], ["Y"]] : List (List String)).getD d [] ↔
        x ∈ levels2.getD d []) :=
  ⟨rfl, by decide, rfl, rfl, rfl, rfl,
    (failed_transfer_is_no_neighbour sampleParse forkWorkingCurl (fun s => s == "B")
      "\x7b\"neighbors\":[]\x7d" (fun _ => [0, 1]) "A" 3 rfl (by decide) rfl rfl).1,
    (failed_transfer_is_no_neighbour sampleParse forkWorkingCurl (fun s => s == "B")
      "\x7b\"neighbors\":[]\x7d" (fun _ => [0, 1]) "A" 3 rfl (by decide) rfl rfl).2.1
      [["A"], ["B", "C"], ["E"], ["Y"]] rfl,
    (failed_transfer_is_no_neighbour sampleParse forkWorkingCurl (fun s => s == "B")
      "\x7b\"neighbors\":[]\x7d" (fun _ => [0, 1]) "A" 3 rfl (by decide) rfl rfl).2.2.1
      (fun s _ => fork_lookup_total s),
    (failed_transfer_is_no_neighbour sampleParse forkWorkingCurl (fun s => s == "B")
      "\x7b\"neighbors\":[]\x7d" (fun _ => [0, 1]) "A" 3 rfl (by decide) rfl rfl).2.2.2.1
      (fun _ _ => rfl) (fun _ => [1, 0]) [["A"], ["B", "C"], ["E"], ["Y"]] rfl⟩

/-- Counterexample to C4 as stated.  (1) With the transfer for `B` failing and no
handle for `parallel_bfs`, the traversal of depth 2 returns the empty vector, not 3
levels.  (2) On the fork graph with the transfer for `X` failing and thread 0 of
the wave of level 2 without a handle, the traversal under one scheduler has level
3 = `[Y]` and the traversal of the service in which `X` has no neighbour has,
under another scheduler, level 3 = `[X]`. -/
theorem failed_transfer_without_handle :
    (parallel_bfs sampleParse (with_failures noHandleCurl (fun s => s == "B"))
        (fun _ => []) "A" 2 = Except.ok [] ∧
      (([] : List (List String)).length : Int) ≠ 2 + 1) ∧
    (parallel_bfs sampleParse (with_failures forkCurl (fun s => s == "X"))
        (fun _ => [0, 1]) "A" 3 = Except.ok [["A"], ["B", "C"], ["D", "E"], ["Y"]] ∧
      parallel_bfs sampleParse
        (with_payload forkCurl (fun s => s == "X") "\x7b\"neighbors\":[]\x7d")
        (fun _ => [1, 0]) "A" 3 = Except.ok [["A"], ["B", "C"], ["E", "D"], ["X"]] ∧
      ¬ (∀ x, x ∈ ([["A"], ["B", "C"], ["D", "E"], ["Y"]] : List (List String)).getD 3 [] ↔
        x ∈ ([["A"], ["B", "C"], ["E", "D"], ["X"]] : List (List String)).getD 3 [])) :=
  ⟨⟨rfl, by decide⟩, rfl, rfl,
    fun h => absurd ((h "Y").1 (by decide)) (by decide)⟩

end GraphCrawler
